import Mathlib

-- Verification of the restore-time reconciliation engine of a Hue bridge
-- backup/restore tool.  Strings are modelled as lists of characters and
-- Python dictionaries as association lists with in-place overwrite.

set_option maxRecDepth 8000

namespace HueBackup

/-- Strings are modelled as lists of characters. -/
abbrev Str := List Char

/-- An entry of a resource collection: hub id paired with the resource name. -/
abbrev Entry := Str × Str

/-- Decidable equality of exception results, needed to evaluate concrete
runs of the pruning phase. -/
instance exceptDecEq {α β : Type} [DecidableEq α] [DecidableEq β] :
    DecidableEq (Except α β)
  | Except.ok a, Except.ok b =>
    if h : a = b then isTrue (by rw [h])
    else isFalse (by intro hc; injection hc with h2; exact h h2)
  | Except.ok _, Except.error _ => isFalse (by intro hc; exact Except.noConfusion hc)
  | Except.error _, Except.ok _ => isFalse (by intro hc; exact Except.noConfusion hc)
  | Except.error e, Except.error f =>
    if h : e = f then isTrue (by rw [h])
    else isFalse (by intro hc; injection hc with h2; exact h h2)

/-- Lookup in a Python-style dictionary (association list, unique keys). -/
def lookup {α : Type} (k : Str) : List (Str × α) → Option α
  | [] => none
  | (k2, v) :: m => if k = k2 then some v else lookup k m

/-- Python dictionary assignment: replace the value in place, else append. -/
def dinsert {α : Type} (k : Str) (v : α) : List (Str × α) → List (Str × α)
  | [] => [(k, v)]
  | (k2, v2) :: m => if k = k2 then (k, v) :: m else (k2, v2) :: dinsert k v m

/-- Number of occurrences of a name in a list of names. -/
def countL (n : Str) : List Str → Nat
  | [] => 0
  | m :: rest => (if m = n then 1 else 0) + countL n rest

/-- Number of entries of a collection carrying the given name. -/
def countName (n : Str) (tree : List Entry) : Nat := countL n (tree.map Prod.snd)

/-- Total indexing into a collection, with a default entry. -/
def nth (l : List Entry) (i : Nat) : Entry := l.getD i ([], [])

/-- Decimal rendering of a number, as in the Python str builtin. -/
def natStr (n : Nat) : Str := Nat.toDigits 10 n

/-- One candidate replacement name: append the index, and if the result
exceeds 31 characters, prefix the index instead and truncate to 31. -/
def fixCandidate (name : Str) (i : Nat) : Str :=
  let fixed := name ++ natStr i
  if 31 < fixed.length then (natStr i ++ name).take 31 else fixed

/-- The inner while loop of fixNames: advance the index until a candidate
not colliding with any known name is found (fuel bounds the search). -/
def findFresh (names : List Str) (name : Str) : Nat → Nat → Option (Str × Nat)
  | 0, _ => none
  | fuel + 1, index =>
    let i := index + 1
    let cand := fixCandidate name i
    if cand ∈ names then findFresh names name fuel i else some (cand, i)

/-- First pass of fixNames: record every name, and enter every name seen
at least twice into the duplicates table with counter zero. -/
def firstPassGo (names : List Str) (dups : List (Str × Nat)) :
    List Entry → List Str × List (Str × Nat)
  | [] => (names, dups)
  | e :: rest =>
    let dups2 := if e.2 ∈ names ∧ lookup e.2 dups = none then dups ++ [(e.2, 0)] else dups
    firstPassGo (names ++ [e.2]) dups2 rest

def firstPass (tree : List Entry) : List Str × List (Str × Nat) :=
  firstPassGo [] [] tree

/-- State of the second pass of fixNames. -/
structure FixState where
  names : List Str
  dups : List (Str × Nat)
  acc : List Entry
deriving DecidableEq

/-- Second pass of fixNames, one entry: the first occurrence of a duplicate
name is kept (counter set to one), later occurrences are renamed to a fresh
candidate, which is also entered into the known-name table. -/
def fixEntry (fuel : Nat) (st : FixState) (e : Entry) : Option FixState :=
  match lookup e.2 st.dups with
  | none => some { st with acc := st.acc ++ [e] }
  | some index =>
    if index = 0 then
      some { st with dups := dinsert e.2 1 st.dups, acc := st.acc ++ [e] }
    else
      match findFresh st.names e.2 fuel index with
      | none => none
      | some (fixed, i2) =>
        some { names := st.names ++ [fixed], dups := dinsert e.2 i2 st.dups,
               acc := st.acc ++ [(e.1, fixed)] }

def fixGo (fuel : Nat) : FixState → List Entry → Option FixState
  | st, [] => some st
  | st, e :: rest =>
    match fixEntry fuel st e with
    | none => none
    | some st2 => fixGo fuel st2 rest

/-- The name deduplicator (fixNames of the source): two passes over the
collection, returning the collection with duplicate names repaired.  The
fuel bounds each candidate search; none models a search that ran out. -/
def fixNames (fuel : Nat) (tree : List Entry) : Option (List Entry) :=
  (fixGo fuel
    { names := (firstPass tree).1, dups := (firstPass tree).2, acc := [] } tree).map
    FixState.acc

/-- Invariant of the second pass of fixNames: tree splits into the processed
prefix and the remaining suffix, all tree names are known, processed entries
carry known and pairwise distinct names, the duplicates table tracks exactly
the names occurring at least twice (counter zero before the first occurrence
is processed, positive afterwards), and each processed entry keeps its name
exactly when it is unique or the first occurrence, renamed entries being at
most 31 characters and fresh with respect to every tree name. -/
structure FixInv (tree pre suf : List Entry) (st : FixState) : Prop where
  split : tree = pre ++ suf
  names_sup : ∀ n, n ∈ tree.map Prod.snd → n ∈ st.names
  acc_names : ∀ e ∈ st.acc, e.2 ∈ st.names
  acc_keys : st.acc.map Prod.fst = pre.map Prod.fst
  nodup : (st.acc.map Prod.snd).Nodup
  dups_keys : ∀ n, (lookup n st.dups).isSome ↔ 2 ≤ countName n tree
  dups_val : ∀ n j, lookup n st.dups = some j →
    (j = 0 ↔ countL n (pre.map Prod.snd) = 0)
  acc_dup : ∀ n, n ∈ st.acc.map Prod.snd → 2 ≤ countName n tree →
    ∃ j, lookup n st.dups = some j ∧ 1 ≤ j
  fut : ∀ n, n ∈ st.acc.map Prod.snd → countName n tree ≤ 1 → n ∉ suf.map Prod.snd
  idx_char : ∀ i, i < pre.length →
    ((nth st.acc i).2 = (nth pre i).2 ↔
      (countName (nth pre i).2 tree ≤ 1 ∨
        countL (nth pre i).2 ((pre.map Prod.snd).take i) = 0))
  idx_ren : ∀ i, i < pre.length → (nth st.acc i).2 ≠ (nth pre i).2 →
    (nth st.acc i).2.length ≤ 31 ∧ (nth st.acc i).2 ∉ tree.map Prod.snd

/-- Indices of the entries of a collection carrying a given name. -/
def occIdx (n : Str) (tree : List Entry) : List Nat :=
  (List.range tree.length).filter (fun i => decide ((nth tree i).2 = n))

/-- Indices of the entries of a collection carrying a given name whose name
differs in the repaired collection. -/
def renamedIdx (n : Str) (tree r : List Entry) : List Nat :=
  (occIdx n tree).filter (fun i => decide ((nth r i).2 ≠ (nth tree i).2))

-- ## Address parsing
-- The regular expressions of the source, as deterministic parsers.  All four
-- patterns are anchored at the front; greedy character classes correspond to
-- maximal runs, since no backtracking can ever help them match.

/-- Characters of the regex class of word characters. -/
def isWordChar (c : Char) : Bool :=
  (('a' ≤ c) && (c ≤ 'z')) || (('A' ≤ c) && (c ≤ 'Z')) || (('0' ≤ c) && (c ≤ '9')) || (c == '_')

/-- Maximal leading run of word characters, with the remainder. -/
def takeWord : Str → Str × Str
  | [] => ([], [])
  | c :: cs =>
    if isWordChar c then (c :: (takeWord cs).1, (takeWord cs).2)
    else ([], c :: cs)

/-- Maximal leading run of characters other than the slash, with the remainder. -/
def takeNonSlash : Str → Str × Str
  | [] => ([], [])
  | c :: cs =>
    if c = '/' then ([], c :: cs)
    else (c :: (takeNonSlash cs).1, (takeNonSlash cs).2)

/-- Shared tail of the two address patterns: a word run, a slash, a word run,
and an optional suffix that starts with a non-word character. -/
def matchTail (s : Str) : Option (Str × Str × Str) :=
  if (takeWord s).1 = [] then none
  else
    match (takeWord s).2 with
    | '/' :: r2 =>
      if (takeWord r2).1 = [] then none
      else some ((takeWord s).1, (takeWord r2).1, (takeWord r2).2)
    | _ => none

/-- The bare rule-condition address pattern (type, id, suffix). -/
def matchRuleAddress : Str → Option (Str × Str × Str)
  | '/' :: rest => matchTail rest
  | _ => none

/-- The API-prefixed schedule-command address pattern (type, id, suffix). -/
def matchScheduleAddress : Str → Option (Str × Str × Str)
  | '/' :: 'a' :: 'p' :: 'i' :: '/' :: rest =>
    if (takeNonSlash rest).1 = [] then none
    else
      match (takeNonSlash rest).2 with
      | '/' :: r2 => matchTail r2
      | _ => none
  | _ => none

/-- The pattern selection of mapAddress and isRelevantAddress. -/
def matchAddr (with_api : Bool) (address : Str) : Option (Str × Str × Str) :=
  if with_api then matchScheduleAddress address else matchRuleAddress address

/-- The unanchored-at-the-end resource-link member pattern (type, id). -/
def matchResourceLink : Str → Option (Str × Str)
  | '/' :: rest =>
    if (takeWord rest).1 = [] then none
    else
      match (takeWord rest).2 with
      | '/' :: r2 =>
        if (takeWord r2).1 = [] then none
        else some ((takeWord rest).1, (takeWord r2).1)
      | _ => none
  | _ => none

-- String literals of the source, as character lists.

def sLights : Str := ("lights").toList
def sGroups : Str := ("groups").toList
def sSensors : Str := ("sensors").toList
def sSchedules : Str := ("schedules").toList
def sRules : Str := ("rules").toList
def sScenes : Str := ("scenes").toList
def sConfig : Str := ("config").toList
def sApiPre : Str := ("/api/").toList
def sDaylight : Str := ("Daylight").toList
def sClipFlag : Str := ("CLIPGenericFlag").toList
def sClipStatus : Str := ("CLIPGenericStatus").toList
def sGroupScene : Str := ("GroupScene").toList
def sLightScene : Str := ("LightScene").toList
def sResourceDeleted : Str := ("resourcedeleted").toList
def sZero : Str := ("0").toList
def sOne : Str := ("1").toList
def sSchedulesSlash : Str := ("schedules/").toList
def sRulesSlash : Str := ("rules/").toList
def sScenesSlash : Str := ("scenes/").toList
def sGroupsSlash : Str := ("groups/").toList
def sSensorsSlash : Str := ("sensors/").toList
def sResourceLinks : Str := ("resourcelinks").toList
def sResourceLinksSlash : Str := ("resourcelinks/").toList

-- ## The reference rewriter

/-- The six identity maps consulted by the reference rewriter. -/
structure Maps where
  light : List (Str × Str)
  sensor : List (Str × Str)
  group : List (Str × Str)
  scene : List (Str × Str)
  schedule : List (Str × Str)
  rule : List (Str × Str)
deriving DecidableEq

/-- Outcome of mapAddress: success, a warning (unmapped id, the owning entity
is skipped) or a structural error (malformed address or unsupported type). -/
inductive MapRes where
  | ok (address : Str) (ctype : Str)
  | warn (msg : Str)
  | err (msg : Str)
deriving DecidableEq

/-- The type dispatch of mapAddress: outer none is an unsupported resource
type, inner none an id absent from the map; config ids pass through. -/
def lookupMap (m : Maps) (ctype cid : Str) : Option (Option Str) :=
  if ctype = sLights then some (lookup cid m.light)
  else if ctype = sGroups then some (lookup cid m.group)
  else if ctype = sSensors then some (lookup cid m.sensor)
  else if ctype = sSchedules then some (lookup cid m.schedule)
  else if ctype = sRules then some (lookup cid m.rule)
  else if ctype = sScenes then some (lookup cid m.scene)
  else if ctype = sConfig then some (some cid)
  else none

/-- The reference rewriter (mapAddress of the source): parse the address,
translate the id through the map of its type, and rebuild the address with
the API prefix for the schedule form and the original trailing suffix. -/
def mapAddress (m : Maps) (apiKey : Str) (address : Str) (with_api : Bool) : MapRes :=
  match matchAddr with_api address with
  | none => MapRes.err address
  | some (ctype, cid, suffix) =>
    match lookupMap m ctype cid with
    | none => MapRes.err address
    | some none => MapRes.warn cid
    | some (some cid2) =>
      let addr :=
        if with_api then sApiPre ++ apiKey ++ '/' :: ctype ++ '/' :: cid2
        else '/' :: ctype ++ '/' :: cid2
      MapRes.ok (addr ++ suffix) ctype

/-- A schedule command or rule action: an address and the optional scene id
inside its body. -/
structure ActionData where
  address : Str
  bodyScene : Option Str
deriving DecidableEq

/-- Outcome of mapAction. -/
inductive ActRes where
  | ok (a : ActionData)
  | warn (msg : Str)
  | err (msg : Str)
deriving DecidableEq

/-- mapAction of the source: rewrite the address, and for a group-addressed
action also translate the scene id embedded in the body. -/
def mapAction (m : Maps) (apiKey : Str) (action : ActionData) (with_api : Bool) : ActRes :=
  match mapAddress m apiKey action.address with_api with
  | MapRes.err msg => ActRes.err msg
  | MapRes.warn msg => ActRes.warn msg
  | MapRes.ok caddress ctype =>
    if ctype = sGroups then
      match action.bodyScene with
      | some sid =>
        match lookup sid m.scene with
        | some sid2 => ActRes.ok { address := caddress, bodyScene := some sid2 }
        | none => ActRes.warn sid
      | none => ActRes.ok { address := caddress, bodyScene := none }
    else ActRes.ok { address := caddress, bodyScene := action.bodyScene }

-- ## Hub write requests
-- Create and update requests are recorded with the resource path and the
-- name of the entity whose body is sent; deletes carry the resource path.

inductive Request where
  | put (resource : Str) (name : Str)
  | post (resource : Str) (name : Str)
  | delete (resource : Str)
deriving DecidableEq

/-- Build a name-to-id index over a collection, recording an error for every
duplicate name (the later entry overwrites the earlier, as in the source). -/
def buildNameIdx (items : List (Str × Str)) : List (Str × Str) × List Str :=
  items.foldl (fun acc e =>
    let (idx, errs) := acc
    let errs := if (lookup e.2 idx).isSome then errs ++ [e.2] else errs
    (dinsert e.2 e.1 idx, errs)) ([], [])

-- ## Schedule restoration

structure ScheduleData where
  name : Str
  description : Str
  command : ActionData
  status : Str
  localtime : Str
  autodelete : Option Bool
  recycle : Bool
deriving DecidableEq

structure SchedState where
  tnameidx : List (Str × Str)
  map_schedule : List (Str × Str)
  requests : List Request
  errors : List Str
  warnings : List Str
deriving DecidableEq

/-- Loop body of restoreSchedules for one target schedule. -/
def scheduleStep (m : Maps) (apiKey : Str) (cur : List (Str × ScheduleData))
    (nameidx : List (Str × Str)) (fresh : Str → Str) (st : SchedState)
    (e : Str × ScheduleData) : SchedState :=
  let index := e.1
  let data := e.2
  let name := data.name
  let st :=
    if (lookup name st.tnameidx).isSome then { st with errors := st.errors ++ [name] } else st
  let st := { st with tnameidx := dinsert name index st.tnameidx }
  match mapAction m apiKey data.command true with
  | ActRes.warn w => { st with warnings := st.warnings ++ [w, name] }
  | ActRes.err er => { st with errors := st.errors ++ [er], warnings := st.warnings ++ [name] }
  | ActRes.ok _cmd =>
    match lookup name nameidx with
    | some idx =>
      let st :=
        match lookup idx cur with
        | some sdata =>
          if sdata.recycle ≠ data.recycle then { st with errors := st.errors ++ [name] } else st
        | none => st
      { st with requests := st.requests ++ [Request.put (sSchedulesSlash ++ idx) name],
                map_schedule := dinsert index idx st.map_schedule }
    | none =>
      { st with requests := st.requests ++ [Request.post sSchedules name],
                map_schedule := dinsert index (fresh index) st.map_schedule }

/-- restoreSchedules of the source: index current schedules by name, then
process each target schedule in order. -/
def restoreSchedules (m : Maps) (apiKey : Str) (fresh : Str → Str)
    (cur tgt : List (Str × ScheduleData)) : SchedState :=
  let (nameidx, errs0) := buildNameIdx (cur.map (fun e => (e.1, e.2.name)))
  tgt.foldl (scheduleStep m apiKey cur nameidx fresh)
    { tnameidx := [], map_schedule := [], requests := [], errors := errs0, warnings := [] }

-- ## Rule restoration

structure CondData where
  address : Str
deriving DecidableEq

structure RuleData where
  name : Str
  status : Str
  conditions : List CondData
  actions : List ActionData
  recycle : Bool
deriving DecidableEq

/-- Rewrite all condition addresses, stopping at the first failure (the open
result carries the rewritten list; the message lists carry what the failing
call emitted). -/
def mapConditions (m : Maps) (apiKey : Str) :
    List CondData → Option (List CondData) × List Str × List Str
  | [] => (some [], [], [])
  | c :: cs =>
    match mapAddress m apiKey c.address false with
    | MapRes.err msg => (none, [msg], [])
    | MapRes.warn msg => (none, [], [msg])
    | MapRes.ok caddr _ =>
      let (r, es, ws) := mapConditions m apiKey cs
      (r.map (fun l => ({ address := caddr } : CondData) :: l), es, ws)

/-- Rewrite all rule actions, stopping at the first failure. -/
def mapActions (m : Maps) (apiKey : Str) :
    List ActionData → Option (List ActionData) × List Str × List Str
  | [] => (some [], [], [])
  | a :: as2 =>
    match mapAction m apiKey a false with
    | ActRes.err msg => (none, [msg], [])
    | ActRes.warn msg => (none, [], [msg])
    | ActRes.ok a2 =>
      let (r, es, ws) := mapActions m apiKey as2
      (r.map (fun l => a2 :: l), es, ws)

structure RuleState where
  tnameidx : List (Str × Str)
  map_rule : List (Str × Str)
  requests : List Request
  errors : List Str
  warnings : List Str
deriving DecidableEq

/-- Loop body of restoreRules for one target rule. -/
def ruleStep (m : Maps) (apiKey : Str) (cur : List (Str × RuleData))
    (nameidx : List (Str × Str)) (fresh : Str → Str) (st : RuleState)
    (e : Str × RuleData) : RuleState :=
  let index := e.1
  let data := e.2
  if data.status = sResourceDeleted then st
  else
    let name := data.name
    let st :=
      if (lookup name st.tnameidx).isSome then { st with errors := st.errors ++ [name] } else st
    let st := { st with tnameidx := dinsert name index st.tnameidx }
    let mc := mapConditions m apiKey data.conditions
    let st := { st with errors := st.errors ++ mc.2.1, warnings := st.warnings ++ mc.2.2 }
    match mc.1 with
    | none => st
    | some _conditions =>
      let ma := mapActions m apiKey data.actions
      let st := { st with errors := st.errors ++ ma.2.1, warnings := st.warnings ++ ma.2.2 }
      match ma.1 with
      | none => st
      | some _actions =>
        match lookup name nameidx with
        | some idx =>
          let st :=
            match lookup idx cur with
            | some sdata =>
              if sdata.recycle ≠ data.recycle then { st with errors := st.errors ++ [name] }
              else st
            | none => st
          { st with requests := st.requests ++ [Request.put (sRulesSlash ++ idx) name],
                    map_rule := dinsert index idx st.map_rule }
        | none =>
          { st with requests := st.requests ++ [Request.post sRules name],
                    map_rule := dinsert index (fresh index) st.map_rule }

/-- restoreRules of the source: index current rules by name (skipping the
resourcedeleted ones), then process each target rule in order. -/
def restoreRules (m : Maps) (apiKey : Str) (fresh : Str → Str)
    (cur tgt : List (Str × RuleData)) : RuleState :=
  let live := cur.filter (fun e => decide (e.2.status ≠ sResourceDeleted))
  let (nameidx, errs0) := buildNameIdx (live.map (fun e => (e.1, e.2.name)))
  tgt.foldl (ruleStep m apiKey cur nameidx fresh)
    { tnameidx := [], map_rule := [], requests := [], errors := errs0, warnings := [] }

-- ## Resource-link restoration

structure LinkData where
  name : Str
  description : Str
  classid : Nat
  links : List Str
  recycle : Bool
deriving DecidableEq

/-- Rewrite all member addresses of a resource link: successes are kept,
failures are collected as missing; the flag records whether any rewritten
member is a rule. -/
def mapLinks (m : Maps) (apiKey : Str) :
    List Str → List Str × List Str × Bool × List Str × List Str
  | [] => ([], [], false, [], [])
  | l :: ls =>
    let (links, miss, ms, es, ws) := mapLinks m apiKey ls
    match mapAddress m apiKey l false with
    | MapRes.ok cl ctype => (cl :: links, miss, (ctype = sRules) || ms, es, ws)
    | MapRes.warn w => (links, l :: miss, ms, es, w :: ws)
    | MapRes.err er => (links, l :: miss, ms, er :: es, ws)

structure LinkState where
  tnameidx : List (Str × Str)
  map_resource_links : List (Str × Str)
  requests : List Request
  errors : List Str
  warnings : List Str
deriving DecidableEq

/-- Loop body of restoreResourceLinks for one target resource link. -/
def linkStep (m : Maps) (apiKey : Str) (cur : List (Str × LinkData))
    (nameidx : List (Str × Str)) (fresh : Str → Str) (st : LinkState)
    (e : Str × LinkData) : LinkState :=
  let index := e.1
  let data := e.2
  let name := data.name
  let st :=
    if (lookup name st.tnameidx).isSome then { st with errors := st.errors ++ [name] } else st
  let st := { st with tnameidx := dinsert name index st.tnameidx }
  let ml := mapLinks m apiKey data.links
  let links := ml.1
  let missing := ml.2.1
  let makes_sense := ml.2.2.1
  let st := { st with errors := st.errors ++ ml.2.2.2.1, warnings := st.warnings ++ ml.2.2.2.2 }
  if links = [] then { st with warnings := st.warnings ++ [name] }
  else if !makes_sense then
    match lookup name nameidx with
    | some idx => { st with requests := st.requests ++ [Request.delete (sResourceLinksSlash ++ idx)] }
    | none => { st with warnings := st.warnings ++ [name] }
  else
    let st := if missing ≠ [] then { st with warnings := st.warnings ++ [name] } else st
    match lookup name nameidx with
    | some idx =>
      let st :=
        match lookup idx cur with
        | some sdata =>
          if sdata.recycle ≠ data.recycle then { st with errors := st.errors ++ [name] } else st
        | none => st
      { st with requests := st.requests ++ [Request.put (sResourceLinksSlash ++ idx) name],
                map_resource_links := dinsert index idx st.map_resource_links }
    | none =>
      { st with requests := st.requests ++ [Request.post sResourceLinks name],
                map_resource_links := dinsert index (fresh index) st.map_resource_links }

/-- restoreResourceLinks of the source. -/
def restoreResourceLinks (m : Maps) (apiKey : Str) (fresh : Str → Str)
    (cur tgt : List (Str × LinkData)) : LinkState :=
  let (nameidx, errs0) := buildNameIdx (cur.map (fun e => (e.1, e.2.name)))
  tgt.foldl (linkStep m apiKey cur nameidx fresh)
    { tnameidx := [], map_resource_links := [], requests := [], errors := errs0, warnings := [] }

-- ## Scene restoration

structure Appdata where
  version : Option Nat
  data : Option Str
deriving DecidableEq

structure SceneData where
  type : Str
  name : Str
  group : Option Str
  lights : Option (List Str)
  appdata : Appdata
  lightstates : Option (List (Str × Str))
  recycle : Bool
deriving DecidableEq

/-- sceneKey of the source: the natural key of a scene.  For a group scene
the group id (translated through the group map when keying the target side,
with a tilde dummy for an unmapped group) joined to the name by a percent
sign; for a light scene the appdata payload, or the guid when absent, joined
to the name by an exclamation mark.  none models the exception raised for an
unknown scene type or a group scene without a group field. -/
def sceneKey (map_group : List (Str × Str)) (guid : Str) (data : SceneData)
    (mapgroup : Bool) : Option Str :=
  if data.type = sGroupScene then
    match data.group with
    | none => none
    | some g0 =>
      let g :=
        if mapgroup then
          match lookup g0 map_group with
          | some g2 => g2
          | none => '~' :: g0
        else g0
      some (g ++ '%' :: data.name)
  else if data.type = sLightScene then
    match data.appdata.data with
    | some d => some (d ++ '!' :: data.name)
    | none => some (guid ++ '!' :: data.name)
  else none

/-- The first component of the natural key (the group id after mapping, or
the appdata payload or guid), used to state key injectivity. -/
def sceneComp (map_group : List (Str × Str)) (guid : Str) (data : SceneData)
    (mapgroup : Bool) : Option Str :=
  if data.type = sGroupScene then
    match data.group with
    | none => none
    | some g0 =>
      some (if mapgroup then
          match lookup g0 map_group with
          | some g2 => g2
          | none => '~' :: g0
        else g0)
  else if data.type = sLightScene then
    some (match data.appdata.data with
          | some d => d
          | none => guid)
  else none

/-- The Hue-App scene-data tag pattern: five characters, r and two digits,
d and two digits. -/
def matchHueApp : Str → Option (Str × Str × Str)
  | [a, b, c, d, e, '_', 'r', r1, r2, '_', 'd', d1, d2] =>
    if (a ≠ '\n' ∧ b ≠ '\n' ∧ c ≠ '\n' ∧ d ≠ '\n' ∧ e ≠ '\n') ∧
        (r1.isDigit ∧ r2.isDigit ∧ d1.isDigit ∧ d2.isDigit) then
      some ([a, b, c, d, e], [r1, r2], [d1, d2])
    else none
  | _ => none

structure SceneState where
  sm : List (Str × Str)
  map_scene : List (Str × Str)
  requests : List Request
  errors : List Str
  warnings : List Str
deriving DecidableEq

/-- Loop body of restoreScenes for one target scene (key, guid, data).  The
matched branch of the source errors and skips on a type mismatch, but only
errors on a recycle mismatch before issuing the update anyway. -/
def sceneStep (map_light map_group : List (Str × Str)) (cur : List (Str × SceneData))
    (fresh : Str → Str) (st : SceneState) (key : Str) (guid : Str) (data : SceneData) :
    SceneState :=
  let bodyGroup : Option (Option Str) :=
    match data.group with
    | some g =>
      match lookup g map_group with
      | some g2 => some (some g2)
      | none => none
    | none => some none
  match bodyGroup with
  | none => { st with warnings := st.warnings ++ [guid] }
  | some bgroup =>
    let bodyLights : Option (Option (List Str) × Bool) :=
      match data.group, data.lights with
      | none, some ll =>
        let lights := ll.filterMap (fun lidx => lookup lidx map_light)
        if lights = [] then none else some (some lights, true)
      | _, _ => some (none, false)
    match bodyLights with
    | none => { st with warnings := st.warnings ++ [guid] }
    | some (_blights, partialWarn) =>
      let st := if partialWarn then { st with warnings := st.warnings ++ [guid] } else st
      match data.lightstates with
      | none => { st with errors := st.errors ++ [guid] }
      | some ls =>
        let _lightstates := ls.filterMap (fun p =>
          match lookup p.1 map_light with
          | some li => some (li, p.2)
          | none => none)
        match lookup key st.sm with
        | some sguid =>
          match lookup sguid cur with
          | none => st
          | some old =>
            if old.type ≠ data.type then { st with errors := st.errors ++ [guid] }
            else
              let st :=
                if old.recycle ≠ data.recycle then { st with errors := st.errors ++ [guid] }
                else st
              { st with requests := st.requests ++ [Request.put (sScenesSlash ++ sguid) data.name],
                        map_scene := dinsert guid sguid st.map_scene }
        | none =>
          let appdata :=
            match data.appdata.data with
            | some _ => data.appdata
            | none => { version := some 1, data := some guid }
          let _appdata2 :=
            if data.type = sGroupScene then
              match appdata.data with
              | some ad =>
                match matchHueApp ad with
                | some (p1, _, p3) =>
                  match bgroup with
                  | some g =>
                    let g2 := if g.length = 1 then '0' :: g else g
                    { appdata with data := some (p1 ++ '_' :: 'r' :: g2 ++ '_' :: 'd' :: p3) }
                  | none => appdata
                | none => appdata
              | none => appdata
            else appdata
          let newId := fresh guid
          { st with requests := st.requests ++ [Request.post sScenes data.name],
                    sm := dinsert key newId st.sm,
                    map_scene := dinsert guid newId st.map_scene }

/-- Build the key-to-guid index over a scene collection, recording an error
for every duplicate key; none models the exception of sceneKey. -/
def buildSceneIdx (map_group : List (Str × Str)) (mapgroup : Bool)
    (scenes : List (Str × SceneData)) : Option (List (Str × Str) × List Str) :=
  scenes.foldlM (fun acc e =>
    match sceneKey map_group e.1 e.2 mapgroup with
    | none => none
    | some k =>
      let (m2, errs) := acc
      some (dinsert k e.1 m2, if (lookup k m2).isSome then errs ++ [e.1] else errs)) ([], [])

/-- restoreScenes of the source: key both sides, then process each target
scene in key order. -/
def restoreScenes (map_light map_group : List (Str × Str))
    (cur tgt : List (Str × SceneData)) (fresh : Str → Str) : Option SceneState :=
  match buildSceneIdx map_group false cur, buildSceneIdx map_group true tgt with
  | some (sm0, es1), some (tm, es2) =>
    some (tm.foldl (fun st p =>
        match lookup p.2 tgt with
        | some data => sceneStep map_light map_group cur fresh st p.1 p.2 data
        | none => st)
      { sm := sm0, map_scene := [], requests := [], errors := es1 ++ es2, warnings := [] })
  | _, _ => none

-- ## Sensor restoration

structure SensorData where
  name : Str
  type : Str
  modelid : Str
  swversion : Str
  manufacturername : Str
  uniqueid : Option Str
  recycle : Bool
  configOn : Option Bool
  configSunriseoffset : Option Int
  configSunsetoffset : Option Int
deriving DecidableEq

/-- One entry of make_map over an (index, uniqueid, name) triple: map the
uniqueid to the index (duplicates error and overwrite); entries without a
uniqueid error unless named Daylight. -/
def mmStep (acc : List (Str × Str) × List Str) (e : Str × Option Str × Str) :
    List (Str × Str) × List Str :=
  match e.2.1 with
  | some u =>
    (dinsert u e.1 acc.1, if (lookup u acc.1).isSome then acc.2 ++ [u] else acc.2)
  | none =>
    (acc.1, if e.2.2 ≠ sDaylight then acc.2 ++ [e.1] else acc.2)

/-- make_map of the source. -/
def make_map (items : List (Str × Option Str × Str)) : List (Str × Str) × List Str :=
  items.foldl mmStep ([], [])

structure SensorState where
  map_sensor : List (Str × Str)
  pending : List Request
  requests : List Request
  errors : List Str
  warnings : List Str
deriving DecidableEq

/-- Loop body of restoreSensors for one (uniqueid, target index) pair:
matched sensors enter the map and queue a deferred rename; CLIP sensors are
recreated; everything else warns. -/
def sensorStep (cur tgt : List (Str × SensorData)) (sm : List (Str × Str))
    (fresh : Str → Str) (st : SensorState) (p : Str × Str) : SensorState :=
  let uniq := p.1
  let index := p.2
  match lookup index tgt with
  | none => st
  | some data =>
    match lookup uniq sm with
    | some si =>
      match lookup si cur with
      | some sdata =>
        let st := { st with map_sensor := dinsert index si st.map_sensor }
        let st :=
          if sdata.type ≠ data.type then { st with errors := st.errors ++ [uniq] } else st
        if sdata.name ≠ data.name then
          { st with pending := st.pending ++ [Request.put (sSensorsSlash ++ si) data.name] }
        else st
      | none => st
    | none =>
      if data.type = sClipFlag ∨ data.type = sClipStatus then
        { st with requests := st.requests ++ [Request.post sSensors data.name],
                  map_sensor := dinsert index (fresh index) st.map_sensor }
      else { st with warnings := st.warnings ++ [uniq] }

/-- restoreSensors of the source: build both uniqueid maps, then process each
target pair; the seeded map is the initial sensor map. -/
def restoreSensors (cur tgt : List (Str × SensorData)) (fresh : Str → Str)
    (map_sensor0 : List (Str × Str)) : SensorState :=
  let (sm, es1) := make_map (cur.map (fun e => (e.1, e.2.uniqueid, e.2.name)))
  let (tm, es2) := make_map (tgt.map (fun e => (e.1, e.2.uniqueid, e.2.name)))
  tm.foldl (sensorStep cur tgt sm fresh)
    { map_sensor := map_sensor0, pending := [], requests := [], errors := es1 ++ es2,
      warnings := [] }

-- ## Group restoration

structure GroupData where
  name : Str
  type : Str
  cls : Option Str
  lights : List Str
  sensors : List Str
  recycle : Bool
deriving DecidableEq

structure GroupState where
  tnameidx : List (Str × Str)
  map_group : List (Str × Str)
  requests : List Request
  errors : List Str
  warnings : List Str
deriving DecidableEq

/-- Loop body of restoreGroups for one target group. -/
def groupStep (map_light map_sensor : List (Str × Str)) (cur : List (Str × GroupData))
    (nameidx : List (Str × Str)) (fresh : Str → Str) (st : GroupState)
    (e : Str × GroupData) : GroupState :=
  let index := e.1
  let data := e.2
  let name := data.name
  let st :=
    if (lookup name st.tnameidx).isSome then { st with errors := st.errors ++ [name] } else st
  let st := { st with tnameidx := dinsert name index st.tnameidx }
  let lights := data.lights.filterMap (fun lidx => lookup lidx map_light)
  let missing_lights := data.lights.filter (fun lidx => (lookup lidx map_light).isNone)
  let missing_sensors := data.sensors.filter (fun sidx => (lookup sidx map_sensor).isNone)
  if lights = [] then { st with warnings := st.warnings ++ [name] }
  else
    let st :=
      if missing_lights ≠ [] ∨ missing_sensors ≠ [] then
        { st with warnings := st.warnings ++ [name] }
      else st
    match lookup name nameidx with
    | some idx =>
      match lookup idx cur with
      | none => st
      | some sdata =>
        if sdata.type ≠ data.type then { st with errors := st.errors ++ [name] }
        else
          { st with requests := st.requests ++ [Request.put (sGroupsSlash ++ idx) name],
                    map_group := dinsert index idx st.map_group }
    | none =>
      { st with requests := st.requests ++ [Request.post sGroups name],
                map_group := dinsert index (fresh index) st.map_group }

/-- restoreGroups of the source; the seeded map is the initial group map. -/
def restoreGroups (map_light map_sensor : List (Str × Str)) (cur tgt : List (Str × GroupData))
    (fresh : Str → Str) (map_group0 : List (Str × Str)) : GroupState :=
  let (nameidx, es0) := buildNameIdx (cur.map (fun e => (e.1, e.2.name)))
  tgt.foldl (groupStep map_light map_sensor cur nameidx fresh)
    { tnameidx := [], map_group := map_group0, requests := [], errors := es0, warnings := [] }

-- ## Resource-link pruning

structure RuleFetched where
  actions : List Str
deriving DecidableEq

structure SchedFetched where
  command : Str
deriving DecidableEq

/-- The live hub as consulted during pruning. -/
structure Hub where
  rules : List (Str × RuleFetched)
  schedules : List (Str × SchedFetched)
  resourcelinks : List (Str × List Str)
deriving DecidableEq

/-- isRelevantAddress of the source.  On a malformed address it records the
error and then dereferences the failed match object; the error value of the
result models the AttributeError this raises. -/
def isRelevantAddress (errors : List Str) (address : Str) (with_api : Bool) :
    List Str × Except Str Bool :=
  match matchAddr with_api address with
  | none => (errors ++ [address], Except.error address)
  | some (ctype, cid, _) =>
    if ctype = sLights then (errors, Except.ok true)
    else if ctype = sGroups then (errors, Except.ok (cid ≠ sZero))
    else (errors, Except.ok false)

/-- Scan rule actions until one is relevant; exceptions propagate. -/
def checkActions (errors : List Str) : List Str → List Str × Except Str Bool
  | [] => (errors, Except.ok false)
  | a :: rest =>
    match isRelevantAddress errors a false with
    | (errs, Except.error e) => (errs, Except.error e)
    | (errs, Except.ok true) => (errs, Except.ok true)
    | (errs, Except.ok false) => checkActions errs rest

/-- Scan the members of a fetched resource link until one is relevant:
malformed members warn and are skipped, rule members check their actions,
schedule members their command, other types are ignored.  A failed fetch of
a referenced rule or schedule, and the exception of isRelevantAddress,
abort (error value). -/
def linkRelevant (hub : Hub) (errors warnings : List Str) :
    List Str → List Str × List Str × Except Str Bool
  | [] => (errors, warnings, Except.ok false)
  | l :: rest =>
    match matchResourceLink l with
    | none => linkRelevant hub errors (warnings ++ [l]) rest
    | some (rtype, rkey) =>
      if rtype = sRules then
        match lookup rkey hub.rules with
        | none => (errors, warnings, Except.error rkey)
        | some rule =>
          match checkActions errors rule.actions with
          | (errs, Except.error e) => (errs, warnings, Except.error e)
          | (errs, Except.ok true) => (errs, warnings, Except.ok true)
          | (errs, Except.ok false) => linkRelevant hub errs warnings rest
      else if rtype = sSchedules then
        match lookup rkey hub.schedules with
        | none => (errors, warnings, Except.error rkey)
        | some sched =>
          match isRelevantAddress errors sched.command true with
          | (errs, Except.error e) => (errs, warnings, Except.error e)
          | (errs, Except.ok true) => (errs, warnings, Except.ok true)
          | (errs, Except.ok false) => linkRelevant hub errs warnings rest
      else linkRelevant hub errors warnings rest

/-- Pruning decision for one restored link: re-fetch it and delete it unless
some member is relevant. -/
def cleanupLink (hub : Hub) (errors warnings : List Str) (key2 : Str) :
    Except Str (List Str × List Str × List Request) :=
  match lookup key2 hub.resourcelinks with
  | none => Except.error key2
  | some links =>
    match linkRelevant hub errors warnings links with
    | (_errs, _ws, Except.error e) => Except.error e
    | (errs, ws, Except.ok true) => Except.ok (errs, ws, [])
    | (errs, ws, Except.ok false) =>
      Except.ok (errs, ws, [Request.delete (sResourceLinksSlash ++ key2)])

/-- cleanupResourceLinks of the source: prune every target link recorded as
successfully restored. -/
def cleanupResourceLinks (hub : Hub) (map_resource_links : List (Str × Str))
    (tgtKeys : List Str) : Except Str (List Str × List Str × List Request) :=
  tgtKeys.foldlM (fun acc key =>
    match lookup key map_resource_links with
    | none => Except.ok acc
    | some key2 =>
      match cleanupLink hub acc.1 acc.2.1 key2 with
      | Except.error e => Except.error e
      | Except.ok (errs2, ws2, reqs2) => Except.ok (errs2, ws2, acc.2.2 ++ reqs2))
    ([], [], [])

-- ## The restore orchestrator, as a phase trace

inductive Phase where
  | fetchCurrent
  | restoreLights
  | applyLightRenames
  | restoreSensors
  | applySensorRenames
  | restoreGroups
  | restoreScenes
  | restoreSchedules
  | restoreRules
  | restoreResourceLinks
  | cleanupResourceLinks
  | report
deriving DecidableEq

def runPhase (p : Phase) (tr : List Phase) : List Phase := tr ++ [p]

/-- The constructor refreshes the current state before anything else. -/
def hueInitTrace : List Phase := runPhase Phase.fetchCurrent []

/-- The straight-line body of restore, phase by phase in source order;
run_updates after lights and after sensors flushes the queued renames. -/
def restoreTrace (tr : List Phase) : List Phase :=
  let tr := runPhase Phase.restoreLights tr
  let tr := runPhase Phase.applyLightRenames tr
  let tr := runPhase Phase.restoreSensors tr
  let tr := runPhase Phase.applySensorRenames tr
  let tr := runPhase Phase.restoreGroups tr
  let tr := runPhase Phase.restoreScenes tr
  let tr := runPhase Phase.restoreSchedules tr
  let tr := runPhase Phase.restoreRules tr
  let tr := runPhase Phase.restoreResourceLinks tr
  let tr := runPhase Phase.cleanupResourceLinks tr
  runPhase Phase.report tr

def restoreRunTrace : List Phase := restoreTrace hueInitTrace

-- ## Error and warning sinks

inductive Event where
  | err (msg : Str)
  | warn (msg : Str)
deriving DecidableEq

structure Sink where
  printed : List Str
  errors : List Str
deriving DecidableEq

/-- The error sink of the source: print and accumulate. -/
def errorFn (st : Sink) (msg : Str) : Sink :=
  { printed := st.printed ++ [msg], errors := st.errors ++ [msg] }

/-- The warning sink of the source: print only. -/
def warningFn (st : Sink) (msg : Str) : Sink :=
  { printed := st.printed ++ [msg], errors := st.errors }

def runEvents (st : Sink) : List Event → Sink
  | [] => st
  | Event.err m :: rest => runEvents (errorFn st m) rest
  | Event.warn m :: rest => runEvents (warningFn st m) rest

/-- The end-of-run report of restore: the accumulated error list, printed
only when it is non-empty. -/
def summarize (st : Sink) : List Str :=
  if st.errors = [] then [] else st.errors

/-- The error messages of an event sequence, in order. -/
def errMsgs : List Event → List Str
  | [] => []
  | Event.err m :: rest => m :: errMsgs rest
  | Event.warn _ :: rest => errMsgs rest

/-- The warning messages of an event sequence, in order. -/
def warnMsgs : List Event → List Str
  | [] => []
  | Event.err _ :: rest => warnMsgs rest
  | Event.warn m :: rest => m :: warnMsgs rest

-- ## Concrete instances used to exercise the scene theorems

/-- A current scene of group type (for the type-mismatch instance). -/
def wOldGroupType : SceneData :=
  { type := sGroupScene, name := ['o'], group := some ['1'], lights := none,
    appdata := { version := none, data := none }, lightstates := none, recycle := false }

/-- A current scene of light type with recycle set (for the recycle-mismatch
instance). -/
def wOldRecycle : SceneData :=
  { type := sLightScene, name := ['o'], group := none, lights := none,
    appdata := { version := none, data := none }, lightstates := none, recycle := true }

/-- A target light scene with appdata payload d, name a and recycle clear. -/
def wTgtScene : SceneData :=
  { type := sLightScene, name := ['a'], group := none, lights := none,
    appdata := { version := none, data := some ['d'] }, lightstates := some [],
    recycle := false }

/-- A scene-phase state whose current index maps the key of wTgtScene to the
current scene G. -/
def wSceneState : SceneState :=
  { sm := [(['d', '!', 'a'], ['G'])], map_scene := [], requests := [], errors := [],
    warnings := [] }

-- ## The relevance predicate of the pruning phase, following the words of
-- the specification (a link is relevant if it points at a rule whose
-- actions touch a light or a non-default group, or at a schedule whose
-- command touches a light or a non-default group)

/-- An address touches a light or a non-default group. -/
def addrRelevantSpec (b : Bool) (a : Str) : Bool :=
  match matchAddr b a with
  | none => false
  | some (ctype, cid, _) =>
    if ctype = sLights then true
    else if ctype = sGroups then decide (cid ≠ sZero)
    else false

/-- A member points at a rule with a relevant action or a schedule with a
relevant command. -/
def memberRelevantSpec (hub : Hub) (l : Str) : Bool :=
  match matchResourceLink l with
  | none => false
  | some (rtype, rkey) =>
    if rtype = sRules then
      match lookup rkey hub.rules with
      | some ru => ru.actions.any (fun a => addrRelevantSpec false a)
      | none => false
    else if rtype = sSchedules then
      match lookup rkey hub.schedules with
      | some sc => addrRelevantSpec true sc.command
      | none => false
    else false

/-- A fetched link is relevant when some member is. -/
def linkRelevantSpec (hub : Hub) (links : List Str) : Bool :=
  links.any (memberRelevantSpec hub)

-- ## Concrete instances used to exercise the import-skip theorems

/-- Empty identity maps. -/
def wMapsEmpty : Maps :=
  { light := [], sensor := [], group := [], scene := [], schedule := [], rule := [] }

/-- Identity maps holding only rule 1 mapped to rule 2. -/
def wMapsRule : Maps :=
  { light := [], sensor := [], group := [], scene := [], schedule := [],
    rule := [(['1'], ['2'])] }

/-- A target schedule whose command addresses the unmapped light 3. -/
def wSchedTarget : ScheduleData :=
  { name := ['S'], description := [],
    command := { address := sApiPre ++ ['k'] ++ '/' :: (sLights ++ '/' :: ['3']),
                 bodyScene := none },
    status := [], localtime := [], autodelete := none, recycle := false }

/-- A target rule with one condition addressing the unmapped light 9. -/
def wRuleTarget : RuleData :=
  { name := ['R'], status := ['e'],
    conditions := [{ address := ['/'] ++ sLights ++ '/' :: ['9'] }],
    actions := [], recycle := false }

/-- A target resource link with one member rewriting to rule 1 and one
member addressing the unmapped light 9. -/
def wLinkTarget : LinkData :=
  { name := ['L'], description := [], classid := 0,
    links := [['/'] ++ sRules ++ '/' :: ['1'], ['/'] ++ sLights ++ '/' :: ['9']],
    recycle := false }

def wSchedState0 : SchedState :=
  { tnameidx := [], map_schedule := [], requests := [], errors := [], warnings := [] }

def wRuleState0 : RuleState :=
  { tnameidx := [], map_rule := [], requests := [], errors := [], warnings := [] }

def wLinkState0 : LinkState :=
  { tnameidx := [], map_resource_links := [], requests := [], errors := [], warnings := [] }

/-- A sensor with hardware uniqueid u (used on both bridges). -/
def wSensorU : SensorData :=
  { name := ['n'], type := ['t'], modelid := [], swversion := [], manufacturername := [],
    uniqueid := some ['u'], recycle := false, configOn := none,
    configSunriseoffset := none, configSunsetoffset := none }

/-- A target group named g with one restorable light. -/
def wGroupG : GroupData :=
  { name := ['g'], type := ("Room").toList, cls := none, lights := [['4']], sensors := [],
    recycle := false }

-- # Theorems

/-- Claim C6: the restore orchestrator executes its phases strictly
sequentially in the fixed order fetch current state, restore lights, apply
pending light renames, restore sensors, apply pending sensor renames,
restore groups, restore scenes, restore schedules, restore rules, restore
resource links, prune irrelevant resource links, report; in particular group
restoration comes only after both light and sensor maps are finalized,
pruning only after rules and schedules are restored, and each queued rename
flush only after the corresponding scan over original names. -/
theorem c6_restore_order :
    restoreRunTrace =
      [Phase.fetchCurrent, Phase.restoreLights, Phase.applyLightRenames,
       Phase.restoreSensors, Phase.applySensorRenames, Phase.restoreGroups,
       Phase.restoreScenes, Phase.restoreSchedules, Phase.restoreRules,
       Phase.restoreResourceLinks, Phase.cleanupResourceLinks, Phase.report] ∧
    restoreRunTrace.indexOf Phase.applyLightRenames <
      restoreRunTrace.indexOf Phase.restoreGroups ∧
    restoreRunTrace.indexOf Phase.applySensorRenames <
      restoreRunTrace.indexOf Phase.restoreGroups ∧
    restoreRunTrace.indexOf Phase.restoreSchedules <
      restoreRunTrace.indexOf Phase.cleanupResourceLinks ∧
    restoreRunTrace.indexOf Phase.restoreRules <
      restoreRunTrace.indexOf Phase.cleanupResourceLinks ∧
    restoreRunTrace.indexOf Phase.restoreLights <
      restoreRunTrace.indexOf Phase.applyLightRenames ∧
    restoreRunTrace.indexOf Phase.restoreSensors <
      restoreRunTrace.indexOf Phase.applySensorRenames := by
  decide

/-- Accumulation behaviour of the sinks: errors are appended to the error
list, warnings only to the printed output. -/
theorem runEvents_spec (st0 : Sink) (evs : List Event) :
    (runEvents st0 evs).errors = st0.errors ++ errMsgs evs ∧
    (runEvents st0 evs).printed = st0.printed ++ evs.map (fun ev =>
      match ev with
      | Event.err m => m
      | Event.warn m => m) := by
  induction evs generalizing st0 with
  | nil => simp [runEvents, errMsgs]
  | cons ev rest ih =>
    cases ev with
    | err m =>
      have h := ih (errorFn st0 m)
      simp [runEvents, errMsgs, errorFn] at h ⊢
      exact ⟨h.1, h.2⟩
    | warn m =>
      have h := ih (warningFn st0 m)
      simp [runEvents, errMsgs, warningFn] at h ⊢
      exact ⟨h.1, h.2⟩

/-- Claim C8 counterexample: a run that emits one warning and no structural
error ends with an empty accumulated error list and an empty summary, so the
warning was neither accumulated nor summarized at the end of the run. -/
theorem c8_counterexample :
    warnMsgs [Event.warn ['w']] = [['w']] ∧
    (runEvents { printed := [], errors := [] } [Event.warn ['w']]).errors = [] ∧
    summarize (runEvents { printed := [], errors := [] } [Event.warn ['w']]) = [] := by
  decide

/-- Claim C8 amended: every structural error emitted during a restore run is
accumulated and, when any error occurred, the end-of-run summary lists
exactly the accumulated errors in order; warnings are printed immediately
when raised and are not accumulated into the summary. -/
theorem c8_amended (evs : List Event) :
    (runEvents { printed := [], errors := [] } evs).errors = errMsgs evs ∧
    (runEvents { printed := [], errors := [] } evs).printed = evs.map (fun ev =>
      match ev with
      | Event.err m => m
      | Event.warn m => m) ∧
    summarize (runEvents { printed := [], errors := [] } evs) =
      (if errMsgs evs = [] then [] else errMsgs evs) := by
  have h := runEvents_spec { printed := [], errors := [] } evs
  simp at h
  exact ⟨h.1, h.2, by simp [summarize, h.1]⟩

/-- Claim C10: on an address that matches neither pattern, isRelevantAddress
records an error and then dereferences the failed match, so it raises rather
than returns; consequently a pruning run that reaches one such malformed
rule-action address aborts entirely instead of skipping it. -/
theorem c10_malformed_address_aborts (address : Str) (errors : List Str)
    (with_api : Bool) (h : matchAddr with_api address = none) :
    isRelevantAddress errors address with_api =
      (errors ++ [address], Except.error address) ∧
    (with_api = false →
      cleanupResourceLinks
        { rules := [(sOne, { actions := [address] })], schedules := [],
          resourcelinks := [(sOne, [['/'] ++ sRules ++ '/' :: sOne])] }
        [(sOne, sOne)] [sOne] = Except.error address) := by
  constructor
  · simp [isRelevantAddress, h]
  · intro hapi
    subst hapi
    have hm : matchResourceLink ('/' :: (sRules ++ '/' :: sOne)) = some (sRules, sOne) := by
      decide
    have hrel : isRelevantAddress [] address false = ([address], Except.error address) := by
      simpa using (by simp [isRelevantAddress, h] :
        isRelevantAddress [] address false = ([] ++ [address], Except.error address))
    have hchk : checkActions [] [address] = ([address], Except.error address) := by
      simp [checkActions, hrel]
    simp [cleanupResourceLinks, cleanupLink, lookup, linkRelevant, hm, hchk]

/-- Claim C10 witness: the concrete malformed address bad, which lacks the
leading slash, recorded as error and aborting the concrete pruning run. -/
theorem c10_witness :
    isRelevantAddress [] ['b', 'a', 'd'] false =
      ([['b', 'a', 'd']], Except.error ['b', 'a', 'd']) ∧
    cleanupResourceLinks
      { rules := [(sOne, { actions := [['b', 'a', 'd']] })], schedules := [],
        resourcelinks := [(sOne, [['/'] ++ sRules ++ '/' :: sOne])] }
      [(sOne, sOne)] [sOne] = Except.error ['b', 'a', 'd'] := by
  have h := c10_malformed_address_aborts ['b', 'a', 'd'] [] false (by decide)
  exact ⟨h.1, h.2 rfl⟩

-- ## Parser lemmas for the round-trip property

/-- takeWord returns a word run, a remainder that does not start with a word
character, and a decomposition of its input. -/
theorem takeWord_sound (s : Str) :
    (∀ c ∈ (takeWord s).1, isWordChar c = true) ∧
    (∀ c, (takeWord s).2.head? = some c → isWordChar c = false) ∧
    s = (takeWord s).1 ++ (takeWord s).2 := by
  induction s with
  | nil => simp [takeWord]
  | cons c cs ih =>
    by_cases hc : isWordChar c
    · simp only [takeWord, hc, if_true]
      refine ⟨?_, ih.2.1, by simpa using ih.2.2⟩
      intro d hd
      rcases List.mem_cons.mp hd with h1 | h1
      · exact h1 ▸ hc
      · exact ih.1 d h1
    · simp only [takeWord, hc, if_false]
      refine ⟨by simp, ?_, by simp⟩
      intro d hd
      simp at hd
      simpa [hd] using (Bool.eq_false_iff.mpr hc)

/-- takeWord on a word run followed by a non-word-headed remainder. -/
theorem takeWord_append (w r : Str) (hw : ∀ c ∈ w, isWordChar c = true)
    (hr : ∀ c, r.head? = some c → isWordChar c = false) :
    takeWord (w ++ r) = (w, r) := by
  induction w with
  | nil =>
    cases r with
    | nil => simp [takeWord]
    | cons c cs =>
      have := hr c (by simp)
      simp [takeWord, this]
  | cons a w2 ih =>
    have ha : isWordChar a = true := hw a (by simp)
    have := ih (fun c hc => hw c (by simp [hc]))
    simp [takeWord, ha, this]

/-- takeNonSlash on a slash-free run followed by a slash-headed remainder. -/
theorem takeNonSlash_append (k r : Str) (hk : ∀ c ∈ k, c ≠ '/')
    (hr : r.head? = some '/') :
    takeNonSlash (k ++ r) = (k, r) := by
  induction k with
  | nil =>
    cases r with
    | nil => simp at hr
    | cons c cs =>
      simp at hr
      simp [takeNonSlash, hr]
  | cons a k2 ih =>
    have ha : a ≠ '/' := hk a (by simp)
    have := ih (fun c hc => hk c (by simp [hc]))
    simp [takeNonSlash, ha, this]

/-- matchTail on a well-formed tail recovers the three components. -/
theorem matchTail_append (t i suffix : Str) (ht : t ≠ []) (htw : ∀ c ∈ t, isWordChar c = true)
    (hi : i ≠ []) (hiw : ∀ c ∈ i, isWordChar c = true)
    (hs : ∀ c, suffix.head? = some c → isWordChar c = false) :
    matchTail (t ++ '/' :: (i ++ suffix)) = some (t, i, suffix) := by
  have h1 : takeWord (t ++ '/' :: (i ++ suffix)) = (t, '/' :: (i ++ suffix)) := by
    refine takeWord_append t ('/' :: (i ++ suffix)) htw ?_
    intro c hc
    simp at hc
    subst hc
    decide
  have h2 : takeWord (i ++ suffix) = (i, suffix) := takeWord_append i suffix hiw hs
  simp [matchTail, h1, h2, ht, hi]

/-- Inversion of matchTail: components are non-empty word runs and the
suffix does not start with a word character; the input decomposes. -/
theorem matchTail_inv (s t i suffix : Str) (h : matchTail s = some (t, i, suffix)) :
    t ≠ [] ∧ (∀ c ∈ t, isWordChar c = true) ∧ i ≠ [] ∧ (∀ c ∈ i, isWordChar c = true) ∧
    (∀ c, suffix.head? = some c → isWordChar c = false) ∧
    s = t ++ '/' :: (i ++ suffix) := by
  have hws := takeWord_sound s
  unfold matchTail at h
  split at h
  · exact absurd h (by simp)
  · rename_i hne
    split at h
    · rename_i r2 hr2
      split at h
      · exact absurd h (by simp)
      · rename_i hne2
        have he : (takeWord s).1 = t ∧ takeWord r2 = (i, suffix) := by
          simpa using h
        obtain ⟨he1, he23⟩ := he
        have he2 : (takeWord r2).1 = i := by rw [he23]
        have he3 : (takeWord r2).2 = suffix := by rw [he23]
        have hws2 := takeWord_sound r2
        refine ⟨he1 ▸ hne, fun c hc => hws.1 c (he1 ▸ hc), he2 ▸ hne2,
          fun c hc => hws2.1 c (he2 ▸ hc), fun c hc => hws2.2.1 c (by rw [he3]; exact hc), ?_⟩
        have hds := hws.2.2
        rw [he1, hr2] at hds
        have hds2 := hws2.2.2
        rw [he2, he3] at hds2
        rw [hds, hds2]
    · exact absurd h (by simp)

/-- The bare pattern on a rebuilt address. -/
theorem matchRuleAddress_append (t i suffix : Str) (ht : t ≠ [])
    (htw : ∀ c ∈ t, isWordChar c = true) (hi : i ≠ [])
    (hiw : ∀ c ∈ i, isWordChar c = true)
    (hs : ∀ c, suffix.head? = some c → isWordChar c = false) :
    matchRuleAddress ('/' :: (t ++ '/' :: (i ++ suffix))) = some (t, i, suffix) := by
  simpa [matchRuleAddress] using matchTail_append t i suffix ht htw hi hiw hs

/-- Inversion of the bare pattern. -/
theorem matchRuleAddress_inv (s t i suffix : Str)
    (h : matchRuleAddress s = some (t, i, suffix)) :
    t ≠ [] ∧ (∀ c ∈ t, isWordChar c = true) ∧ i ≠ [] ∧ (∀ c ∈ i, isWordChar c = true) ∧
    (∀ c, suffix.head? = some c → isWordChar c = false) ∧
    s = '/' :: (t ++ '/' :: (i ++ suffix)) := by
  unfold matchRuleAddress at h
  split at h
  · rename_i rest
    have hr := matchTail_inv rest t i suffix h
    exact ⟨hr.1, hr.2.1, hr.2.2.1, hr.2.2.2.1, hr.2.2.2.2.1, by rw [hr.2.2.2.2.2]⟩
  · exact absurd h (by simp)

/-- The API-prefixed pattern on a rebuilt address. -/
theorem matchScheduleAddress_append (apiKey t i suffix : Str)
    (hk : apiKey ≠ []) (hk2 : ∀ c ∈ apiKey, c ≠ '/') (ht : t ≠ [])
    (htw : ∀ c ∈ t, isWordChar c = true) (hi : i ≠ [])
    (hiw : ∀ c ∈ i, isWordChar c = true)
    (hs : ∀ c, suffix.head? = some c → isWordChar c = false) :
    matchScheduleAddress (sApiPre ++ apiKey ++ '/' :: (t ++ '/' :: (i ++ suffix))) =
      some (t, i, suffix) := by
  have hval : sApiPre = ['/', 'a', 'p', 'i', '/'] := by decide
  have h1 : takeNonSlash (apiKey ++ '/' :: (t ++ '/' :: (i ++ suffix))) =
      (apiKey, '/' :: (t ++ '/' :: (i ++ suffix))) :=
    takeNonSlash_append _ _ hk2 (by simp)
  rw [hval]
  simp [matchScheduleAddress, h1, hk, matchTail_append t i suffix ht htw hi hiw hs]

/-- Inversion of the API-prefixed pattern. -/
theorem matchScheduleAddress_inv (s t i suffix : Str)
    (h : matchScheduleAddress s = some (t, i, suffix)) :
    t ≠ [] ∧ (∀ c ∈ t, isWordChar c = true) ∧ i ≠ [] ∧ (∀ c ∈ i, isWordChar c = true) ∧
    (∀ c, suffix.head? = some c → isWordChar c = false) := by
  unfold matchScheduleAddress at h
  split at h
  · rename_i rest
    split at h
    · exact absurd h (by simp)
    · split at h
      · rename_i r2 hr2
        have hr := matchTail_inv r2 t i suffix h
        exact ⟨hr.1, hr.2.1, hr.2.2.1, hr.2.2.2.1, hr.2.2.2.2.1⟩
      · exact absurd h (by simp)
  · exact absurd h (by simp)

/-- The six mapped resource types are non-empty word runs. -/
theorem mappedTypeWord (ctype : Str)
    (htype : ctype = sLights ∨ ctype = sGroups ∨ ctype = sSensors ∨
      ctype = sSchedules ∨ ctype = sRules ∨ ctype = sScenes) :
    ctype ≠ [] ∧ ∀ c ∈ ctype, isWordChar c = true := by
  rcases htype with rfl | rfl | rfl | rfl | rfl | rfl <;> exact ⟨by decide, by decide⟩

/-- Claim C5: for an address whose resource type is one of the mapped types
and whose id is present in the corresponding identity map (the mapped id
being a hub id, i.e. a non-empty word run, and the API key being non-empty
and slash-free in the prefixed form), mapAddress succeeds, and re-parsing
the returned address with the same pattern recovers the mapped id, the same
resource type, and the original trailing suffix unchanged. -/
theorem c5_mapAddress_roundtrip (m : Maps) (apiKey address ctype cid suffix cid2 : Str)
    (with_api : Bool)
    (hparse : matchAddr with_api address = some (ctype, cid, suffix))
    (htype : ctype = sLights ∨ ctype = sGroups ∨ ctype = sSensors ∨
      ctype = sSchedules ∨ ctype = sRules ∨ ctype = sScenes)
    (hmap : lookupMap m ctype cid = some (some cid2))
    (hcid1 : cid2 ≠ []) (hcid2 : ∀ c ∈ cid2, isWordChar c = true)
    (hkey1 : with_api = true → apiKey ≠ [])
    (hkey2 : with_api = true → ∀ c ∈ apiKey, c ≠ '/') :
    ∃ addr2, mapAddress m apiKey address with_api = MapRes.ok addr2 ctype ∧
      matchAddr with_api addr2 = some (ctype, cid2, suffix) := by
  obtain ⟨hct1, hct2⟩ := mappedTypeWord ctype htype
  cases with_api with
  | false =>
    have hinv := matchRuleAddress_inv address ctype cid suffix
      (by simpa [matchAddr] using hparse)
    refine ⟨('/' :: ctype ++ '/' :: cid2) ++ suffix, ?_, ?_⟩
    · simp [mapAddress, hparse, hmap]
    · have hsh : ('/' :: ctype ++ '/' :: cid2) ++ suffix =
          '/' :: (ctype ++ '/' :: (cid2 ++ suffix)) := by simp
      rw [hsh]
      simpa [matchAddr] using
        matchRuleAddress_append ctype cid2 suffix hct1 hct2 hcid1 hcid2 hinv.2.2.2.2.1
  | true =>
    have hinv := matchScheduleAddress_inv address ctype cid suffix
      (by simpa [matchAddr] using hparse)
    refine ⟨(sApiPre ++ apiKey ++ '/' :: ctype ++ '/' :: cid2) ++ suffix, ?_, ?_⟩
    · simp [mapAddress, hparse, hmap]
    · have hsh : (sApiPre ++ apiKey ++ '/' :: ctype ++ '/' :: cid2) ++ suffix =
          sApiPre ++ apiKey ++ '/' :: (ctype ++ '/' :: (cid2 ++ suffix)) := by simp
      rw [hsh]
      simpa [matchAddr] using
        matchScheduleAddress_append apiKey ctype cid2 suffix (hkey1 rfl) (hkey2 rfl)
          hct1 hct2 hcid1 hcid2 hinv.2.2.2.2

/-- Claim C5 witness: a concrete rule-condition address over a light map
sending id 2 to id 7, with the suffix preserved by the round trip. -/
theorem c5_witness :
    mapAddress
      { light := [(['2'], ['7'])], sensor := [], group := [], scene := [],
        schedule := [], rule := [] }
      ['k'] (['/'] ++ sLights ++ ('/' :: '2' :: '/' :: ['s'])) false =
      MapRes.ok (['/'] ++ sLights ++ ('/' :: '7' :: '/' :: ['s'])) sLights ∧
    matchAddr false (['/'] ++ sLights ++ ('/' :: '7' :: '/' :: ['s'])) =
      some (sLights, ['7'], ['/', 's']) := by
  obtain ⟨addr2, h1, h2⟩ := c5_mapAddress_roundtrip
    { light := [(['2'], ['7'])], sensor := [], group := [], scene := [],
      schedule := [], rule := [] }
    ['k'] (['/'] ++ sLights ++ ('/' :: '2' :: '/' :: ['s'])) sLights ['2'] ['/', 's'] ['7'] false
    (by decide) (by decide) (by decide) (by decide) (by decide)
    (fun h => by cases h) (fun h => by cases h)
  have h3 : mapAddress
      { light := [(['2'], ['7'])], sensor := [], group := [], scene := [],
        schedule := [], rule := [] }
      ['k'] (['/'] ++ sLights ++ ('/' :: '2' :: '/' :: ['s'])) false =
      MapRes.ok (['/'] ++ sLights ++ ('/' :: '7' :: '/' :: ['s'])) sLights := by decide
  rw [h3] at h1
  have ha : addr2 = ['/'] ++ sLights ++ ('/' :: '7' :: '/' :: ['s']) := by
    cases h1
    rfl
  rw [ha] at h2
  exact ⟨h3, h2⟩

-- ## Scene-key lemmas

/-- Joining separator-free components by separator characters is injective. -/
theorem sep_join_inj (a : Str) : ∀ (b x y : Str) (s t : Char), s ∉ a → t ∉ a → s ∉ b → t ∉ b →
    a ++ s :: x = b ++ t :: y → a = b ∧ s = t ∧ x = y := by
  induction a with
  | nil =>
    intro b x y s t _ _ hsb _ h
    cases b with
    | nil => simpa using h
    | cons c b2 =>
      simp at h
      exact absurd (h.1 ▸ (by simp : c ∈ c :: b2)) hsb
  | cons c a2 ih =>
    intro b x y s t hsa hta hsb htb h
    cases b with
    | nil =>
      simp at h
      exact absurd (h.1 ▸ (by simp : c ∈ c :: a2)) hta
    | cons d b2 =>
      simp at h
      obtain ⟨hcd, htail⟩ := h
      have := ih b2 x y s t (by simp at hsa; exact fun hm => hsa.2 hm)
        (by simp at hta; exact fun hm => hta.2 hm)
        (by simp at hsb; exact fun hm => hsb.2 hm)
        (by simp at htb; exact fun hm => htb.2 hm) htail
      exact ⟨by simp [hcd, this.1], this.2.1, this.2.2⟩

/-- A defined scene key is the defined component joined to the name by the
separator of its scene type. -/
theorem sceneKey_eq_comp (mg : List (Str × Str)) (guid : Str) (d : SceneData) (b : Bool)
    (k x : Str) (hk : sceneKey mg guid d b = some k) (hc : sceneComp mg guid d b = some x) :
    (d.type = sGroupScene ∧ k = x ++ '%' :: d.name) ∨
    (d.type = sLightScene ∧ k = x ++ '!' :: d.name) := by
  by_cases hg : d.type = sGroupScene
  · cases hgr : d.group with
    | none => simp [sceneKey, hg, hgr] at hk
    | some g0 =>
      left
      refine ⟨hg, ?_⟩
      simp [sceneKey, hg, hgr] at hk
      simp [sceneComp, hg, hgr] at hc
      rw [← hk, ← hc]
  · by_cases hl : d.type = sLightScene
    · have hgl : sLightScene ≠ sGroupScene := by decide
      cases had : d.appdata.data with
      | none =>
        right
        refine ⟨hl, ?_⟩
        simp [sceneKey, hg, hl, had, hgl] at hk
        simp [sceneComp, hg, hl, had, hgl] at hc
        rw [← hk, ← hc]
      | some dd =>
        right
        refine ⟨hl, ?_⟩
        simp [sceneKey, hg, hl, had, hgl] at hk
        simp [sceneComp, hg, hl, had, hgl] at hc
        rw [← hk, ← hc]
    · simp [sceneKey, hg, hl] at hk

/-- Claim C4 counterexample: a group scene with group id 1 and name a!b and
a light scene with appdata payload 1%a and name b have distinct
(group-or-appdata, name) pairs but identical derived keys 1%a!b, because the
separators can occur inside the encoded components. -/
theorem c4_counterexample :
    sceneKey [] []
      { type := sGroupScene, name := ['a', '!', 'b'], group := some ['1'], lights := none,
        appdata := { version := none, data := none }, lightstates := none, recycle := false }
      false = some ['1', '%', 'a', '!', 'b'] ∧
    sceneKey [] []
      { type := sLightScene, name := ['b'], group := none, lights := none,
        appdata := { version := none, data := some ['1', '%', 'a'] }, lightstates := none,
        recycle := false }
      false = some ['1', '%', 'a', '!', 'b'] ∧
    sceneComp [] []
      { type := sGroupScene, name := ['a', '!', 'b'], group := some ['1'], lights := none,
        appdata := { version := none, data := none }, lightstates := none, recycle := false }
      false = some ['1'] ∧
    sceneComp [] []
      { type := sLightScene, name := ['b'], group := none, lights := none,
        appdata := { version := none, data := some ['1', '%', 'a'] }, lightstates := none,
        recycle := false }
      false = some ['1', '%', 'a'] ∧
    (['1'] : Str) ≠ ['1', '%', 'a'] ∧ (['a', '!', 'b'] : Str) ≠ ['b'] := by
  decide

/-- Claim C4 amended: key derivation is deterministic (re-deriving from the
same inputs yields the same string), and it is injective on the encoded
pairs provided the encoded first component (mapped group id or appdata
payload or guid) contains neither of the separator characters percent and
exclamation mark: two scenes with defined keys and distinct (component,
name) pairs derive distinct keys. -/
theorem c4_amended :
    (∀ (mg : List (Str × Str)) (guid : Str) (d : SceneData) (b : Bool),
      sceneKey mg guid d b = sceneKey mg guid d b) ∧
    (∀ (mg : List (Str × Str)) (g1 g2 : Str) (d1 d2 : SceneData) (b1 b2 : Bool)
      (k1 k2 x1 x2 : Str),
      sceneKey mg g1 d1 b1 = some k1 → sceneKey mg g2 d2 b2 = some k2 →
      sceneComp mg g1 d1 b1 = some x1 → sceneComp mg g2 d2 b2 = some x2 →
      '%' ∉ x1 → '!' ∉ x1 → '%' ∉ x2 → '!' ∉ x2 →
      (x1 ≠ x2 ∨ d1.name ≠ d2.name) → k1 ≠ k2) := by
  refine ⟨fun _ _ _ _ => rfl, ?_⟩
  intro mg g1 g2 d1 d2 b1 b2 k1 k2 x1 x2 hk1 hk2 hc1 hc2 hx1p hx1e hx2p hx2e hne heq
  have h1 := sceneKey_eq_comp mg g1 d1 b1 k1 x1 hk1 hc1
  have h2 := sceneKey_eq_comp mg g2 d2 b2 k2 x2 hk2 hc2
  rcases h1 with ⟨_, he1⟩ | ⟨_, he1⟩ <;> rcases h2 with ⟨_, he2⟩ | ⟨_, he2⟩
  · have := sep_join_inj x1 x2 d1.name d2.name '%' '%' hx1p hx1p hx2p hx2p
      (by rw [← he1, ← he2, heq])
    rcases hne with hne | hne
    · exact hne this.1
    · exact hne this.2.2
  · have := sep_join_inj x1 x2 d1.name d2.name '%' '!' hx1p hx1e hx2p hx2e
      (by rw [← he1, ← he2, heq])
    exact absurd this.2.1 (by decide)
  · have := sep_join_inj x1 x2 d1.name d2.name '!' '%' hx1e hx1p hx2e hx2p
      (by rw [← he1, ← he2, heq])
    exact absurd this.2.1 (by decide)
  · have := sep_join_inj x1 x2 d1.name d2.name '!' '!' hx1e hx1e hx2e hx2e
      (by rw [← he1, ← he2, heq])
    rcases hne with hne | hne
    · exact hne this.1
    · exact hne this.2.2

/-- Claim C4 witness: two separator-free concrete scenes, one group-scoped
with mapped group 5 to 12 and name Evening, one standalone, derive the keys
12%Evening and d7!Morning, which the amended injectivity confirms
distinct. -/
theorem c4_witness :
    sceneKey [(['5'], ['1', '2'])] ['g']
      { type := sGroupScene, name := ("Evening").toList, group := some ['5'], lights := none,
        appdata := { version := none, data := none }, lightstates := none, recycle := false }
      true = some (['1', '2'] ++ '%' :: ("Evening").toList) ∧
    sceneKey [(['5'], ['1', '2'])] ['g']
      { type := sLightScene, name := ("Morning").toList, group := none, lights := none,
        appdata := { version := none, data := some ['d', '7'] }, lightstates := none,
        recycle := false }
      true = some (['d', '7'] ++ '!' :: ("Morning").toList) ∧
    (['1', '2'] ++ '%' :: ("Evening").toList) ≠ (['d', '7'] ++ '!' :: ("Morning").toList) := by
  refine ⟨by decide, by decide, ?_⟩
  exact c4_amended.2 [(['5'], ['1', '2'])] ['g'] ['g']
    { type := sGroupScene, name := ("Evening").toList, group := some ['5'], lights := none,
      appdata := { version := none, data := none }, lightstates := none, recycle := false }
    { type := sLightScene, name := ("Morning").toList, group := none, lights := none,
      appdata := { version := none, data := some ['d', '7'] }, lightstates := none,
      recycle := false }
    true true _ _ ['1', '2'] ['d', '7']
    (by decide) (by decide) (by decide) (by decide)
    (by decide) (by decide) (by decide) (by decide) (Or.inl (by decide))

-- ## The matched branch of scene restoration

/-- Claim C3 counterexample: a target scene whose key matches a current
scene of equal type but different recycle flag records an error and still
issues the update request, instead of being skipped. -/
theorem c3_counterexample :
    wOldRecycle.type = wTgtScene.type ∧ wOldRecycle.recycle ≠ wTgtScene.recycle ∧
    (sceneStep [] [] [(['G'], wOldRecycle)] (fun _ => []) wSceneState
        ['d', '!', 'a'] ['T'] wTgtScene) =
      { sm := [(['d', '!', 'a'], ['G'])], map_scene := [(['T'], ['G'])],
        requests := [Request.put (sScenesSlash ++ ['G']) ['a']], errors := [['T']],
        warnings := [] } := by
  refine ⟨by decide, by decide, by decide⟩

/-- Claim C3 amended: for a target scene whose natural key matches an
existing current scene (with its pre-checks passing: group mapped or absent,
some member light mapped when membership is by lights, lightstates present),
a type mismatch records an error and skips the scene, while a recycle-flag
mismatch records an error but still issues the update request. -/
theorem c3_amended (map_light map_group : List (Str × Str)) (cur : List (Str × SceneData))
    (fresh : Str → Str) (st : SceneState) (key guid : Str) (data old : SceneData)
    (ls : List (Str × Str)) (sguid : Str)
    (hg : data.group = none ∨ ∃ g g2, data.group = some g ∧ lookup g map_group = some g2)
    (hlights : ∀ ll, data.group = none → data.lights = some ll →
      ll.filterMap (fun lidx => lookup lidx map_light) ≠ [])
    (hls : data.lightstates = some ls)
    (hsm : lookup key st.sm = some sguid)
    (hold : lookup sguid cur = some old) :
    (old.type ≠ data.type →
      (sceneStep map_light map_group cur fresh st key guid data).requests = st.requests ∧
      (sceneStep map_light map_group cur fresh st key guid data).errors =
        st.errors ++ [guid]) ∧
    (old.type = data.type → old.recycle ≠ data.recycle →
      (sceneStep map_light map_group cur fresh st key guid data).requests =
        st.requests ++ [Request.put (sScenesSlash ++ sguid) data.name] ∧
      (sceneStep map_light map_group cur fresh st key guid data).errors =
        st.errors ++ [guid]) := by
  rcases hg with hgn | ⟨g, g2, hgs, hlk⟩
  · cases hlig : data.lights with
    | none =>
      constructor
      · intro hty
        constructor <;> simp [sceneStep, hgn, hlig, hls, hsm, hold, hty]
      · intro hty hrec
        constructor <;> simp [sceneStep, hgn, hlig, hls, hsm, hold, hty, hrec]
    | some ll =>
      have hne := hlights ll hgn hlig
      constructor
      · intro hty
        constructor <;> simp [sceneStep, hgn, hlig, hls, hsm, hold, hty, hne]
      · intro hty hrec
        constructor <;> simp [sceneStep, hgn, hlig, hls, hsm, hold, hty, hrec, hne]
  · constructor
    · intro hty
      constructor <;> simp [sceneStep, hgs, hlk, hls, hsm, hold, hty]
    · intro hty hrec
      constructor <;> simp [sceneStep, hgs, hlk, hls, hsm, hold, hty, hrec]

/-- Claim C3 witness: the amended behaviour at concrete scenes, one matched
pair with a type mismatch (no request issued) and one with a recycle
mismatch (update request issued anyway), both with the error recorded. -/
theorem c3_witness :
    (sceneStep [] [] [(['G'], wOldGroupType)] (fun _ => []) wSceneState
        ['d', '!', 'a'] ['T'] wTgtScene).requests = [] ∧
    (sceneStep [] [] [(['G'], wOldGroupType)] (fun _ => []) wSceneState
        ['d', '!', 'a'] ['T'] wTgtScene).errors = [['T']] ∧
    (sceneStep [] [] [(['G'], wOldRecycle)] (fun _ => []) wSceneState
        ['d', '!', 'a'] ['T'] wTgtScene).requests =
      [Request.put (sScenesSlash ++ ['G']) ['a']] ∧
    (sceneStep [] [] [(['G'], wOldRecycle)] (fun _ => []) wSceneState
        ['d', '!', 'a'] ['T'] wTgtScene).errors = [['T']] := by
  have h1 := c3_amended [] [] [(['G'], wOldGroupType)] (fun _ => []) wSceneState
    ['d', '!', 'a'] ['T'] wTgtScene wOldGroupType [] ['G']
    (Or.inl rfl) (fun ll h1 h2 => by cases h2) rfl (by decide) (by decide)
  have h2 := c3_amended [] [] [(['G'], wOldRecycle)] (fun _ => []) wSceneState
    ['d', '!', 'a'] ['T'] wTgtScene wOldRecycle [] ['G']
    (Or.inl rfl) (fun ll h1 h2 => by cases h2) rfl (by decide) (by decide)
  obtain ⟨hr1, he1⟩ := h1.1 (by decide)
  obtain ⟨hr2, he2⟩ := h2.2 (by decide) (by decide)
  refine ⟨by simpa [wSceneState] using hr1, by simpa [wSceneState] using he1,
    by simpa [wSceneState, wTgtScene] using hr2, by simpa [wSceneState] using he2⟩

-- ## Failure propagation in rule and schedule rewriting

/-- A failing condition address makes the whole condition rewrite fail. -/
theorem mapConditions_none (m : Maps) (apiKey : Str) (cs : List CondData)
    (h : ∃ c ∈ cs, ∀ ad ct, mapAddress m apiKey c.address false ≠ MapRes.ok ad ct) :
    (mapConditions m apiKey cs).1 = none := by
  induction cs with
  | nil => simp at h
  | cons c0 cs2 ih =>
    obtain ⟨c, hc, hfail⟩ := h
    cases hma : mapAddress m apiKey c0.address false with
    | ok ad ct =>
      rcases List.mem_cons.mp hc with rfl | hc2
      · exact absurd hma (hfail ad ct)
      · have hr := ih ⟨c, hc2, hfail⟩
        simp [mapConditions, hma, hr]
    | warn w => simp [mapConditions, hma]
    | err er => simp [mapConditions, hma]

/-- A failed condition rewrite emitted at least one message. -/
theorem mapConditions_none_msgs (m : Maps) (apiKey : Str) (cs : List CondData)
    (h : (mapConditions m apiKey cs).1 = none) :
    1 ≤ (mapConditions m apiKey cs).2.1.length + (mapConditions m apiKey cs).2.2.length := by
  induction cs with
  | nil => simp [mapConditions] at h
  | cons c0 cs2 ih =>
    cases hma : mapAddress m apiKey c0.address false with
    | ok ad ct =>
      simp [mapConditions, hma, Option.map_eq_none'] at h ⊢
      exact ih h
    | warn w => simp [mapConditions, hma]
    | err er => simp [mapConditions, hma]

/-- A failing action makes the whole action rewrite fail. -/
theorem mapActions_none (m : Maps) (apiKey : Str) (acts : List ActionData)
    (h : ∃ a ∈ acts, ∀ a2, mapAction m apiKey a false ≠ ActRes.ok a2) :
    (mapActions m apiKey acts).1 = none := by
  induction acts with
  | nil => simp at h
  | cons a0 as2 ih =>
    obtain ⟨a, ha, hfail⟩ := h
    cases hma : mapAction m apiKey a0 false with
    | ok a2 =>
      rcases List.mem_cons.mp ha with rfl | ha2
      · exact absurd hma (hfail a2)
      · have hr := ih ⟨a, ha2, hfail⟩
        simp [mapActions, hma, hr]
    | warn w => simp [mapActions, hma]
    | err er => simp [mapActions, hma]

/-- A failed action rewrite emitted at least one message. -/
theorem mapActions_none_msgs (m : Maps) (apiKey : Str) (acts : List ActionData)
    (h : (mapActions m apiKey acts).1 = none) :
    1 ≤ (mapActions m apiKey acts).2.1.length + (mapActions m apiKey acts).2.2.length := by
  induction acts with
  | nil => simp [mapActions] at h
  | cons a0 as2 ih =>
    cases hma : mapAction m apiKey a0 false with
    | ok a2 =>
      simp [mapActions, hma, Option.map_eq_none'] at h ⊢
      exact ih h
    | warn w => simp [mapActions, hma]
    | err er => simp [mapActions, hma]

/-- Claim C2 counterexample: a target resource link with one member that
rewrites to a rule and one member whose rewrite fails (unmapped light 9) is
not skipped: the create request is still issued, with only the surviving
member, so a partially rewritten resource link is imported. -/
theorem c2_counterexample :
    mapAddress
      { light := [], sensor := [], group := [], scene := [], schedule := [],
        rule := [(['1'], ['2'])] }
      ['k'] (['/'] ++ sLights ++ '/' :: ['9']) false = MapRes.warn ['9'] ∧
    (linkStep
        { light := [], sensor := [], group := [], scene := [], schedule := [],
          rule := [(['1'], ['2'])] }
        ['k'] [] [] (fun _ => ['8'])
        { tnameidx := [], map_resource_links := [], requests := [], errors := [],
          warnings := [] }
        (['5'],
          { name := ['L'], description := [], classid := 0,
            links := [['/'] ++ sRules ++ '/' :: ['1'], ['/'] ++ sLights ++ '/' :: ['9']],
            recycle := false })).requests = [Request.post sResourceLinks ['L']] := by
  constructor
  · decide
  · decide

/-- Claim C2 amended: a schedule whose command fails to rewrite, and a rule
one of whose condition or action addresses fails to rewrite, are skipped
with a message and produce no create or update request and no map entry; a
resource link, however, only drops a failing member: it is still imported
with one create or update request whenever some member rewrites and some
rewritten member is a rule, and it is skipped (with a warning) only when no
member rewrites at all. -/
theorem c2_amended :
    (∀ (m : Maps) (apiKey : Str) (cur : List (Str × ScheduleData))
      (nameidx : List (Str × Str)) (fresh : Str → Str) (st : SchedState)
      (e : Str × ScheduleData),
      (∀ a, mapAction m apiKey e.2.command true ≠ ActRes.ok a) →
      (scheduleStep m apiKey cur nameidx fresh st e).requests = st.requests ∧
      (scheduleStep m apiKey cur nameidx fresh st e).map_schedule = st.map_schedule ∧
      st.warnings.length < (scheduleStep m apiKey cur nameidx fresh st e).warnings.length) ∧
    (∀ (m : Maps) (apiKey : Str) (cur : List (Str × RuleData))
      (nameidx : List (Str × Str)) (fresh : Str → Str) (st : RuleState)
      (e : Str × RuleData),
      e.2.status ≠ sResourceDeleted →
      ((∃ c ∈ e.2.conditions, ∀ ad ct, mapAddress m apiKey c.address false ≠ MapRes.ok ad ct) ∨
        (∃ a ∈ e.2.actions, ∀ a2, mapAction m apiKey a false ≠ ActRes.ok a2)) →
      (ruleStep m apiKey cur nameidx fresh st e).requests = st.requests ∧
      (ruleStep m apiKey cur nameidx fresh st e).map_rule = st.map_rule ∧
      st.errors.length + st.warnings.length <
        (ruleStep m apiKey cur nameidx fresh st e).errors.length +
          (ruleStep m apiKey cur nameidx fresh st e).warnings.length) ∧
    (∀ (m : Maps) (apiKey : Str) (cur : List (Str × LinkData))
      (nameidx : List (Str × Str)) (fresh : Str → Str) (st : LinkState)
      (e : Str × LinkData),
      ((mapLinks m apiKey e.2.links).1 = [] →
        (linkStep m apiKey cur nameidx fresh st e).requests = st.requests ∧
        (linkStep m apiKey cur nameidx fresh st e).map_resource_links =
          st.map_resource_links ∧
        st.warnings.length < (linkStep m apiKey cur nameidx fresh st e).warnings.length) ∧
      ((mapLinks m apiKey e.2.links).1 ≠ [] → (mapLinks m apiKey e.2.links).2.2.1 = true →
        ∃ r, (linkStep m apiKey cur nameidx fresh st e).requests = st.requests ++ [r] ∧
          ((∃ idx, lookup e.2.name nameidx = some idx ∧
              r = Request.put (sResourceLinksSlash ++ idx) e.2.name) ∨
            (lookup e.2.name nameidx = none ∧
              r = Request.post sResourceLinks e.2.name)))) := by
  refine ⟨?_, ?_, ?_⟩
  · intro m apiKey cur nameidx fresh st e hfail
    cases hma : mapAction m apiKey e.2.command true with
    | ok a => exact absurd hma (hfail a)
    | warn w =>
      by_cases hdup : (lookup e.2.name st.tnameidx).isSome <;>
        exact ⟨by simp [scheduleStep, hma, hdup], by simp [scheduleStep, hma, hdup],
          by simp [scheduleStep, hma, hdup]⟩
    | err er =>
      by_cases hdup : (lookup e.2.name st.tnameidx).isSome <;>
        exact ⟨by simp [scheduleStep, hma, hdup], by simp [scheduleStep, hma, hdup],
          by simp [scheduleStep, hma, hdup]⟩
  · intro m apiKey cur nameidx fresh st e hstat hfail
    have hsplit : (mapConditions m apiKey e.2.conditions).1 = none ∨
        (∃ cs2, (mapConditions m apiKey e.2.conditions).1 = some cs2 ∧
          (mapActions m apiKey e.2.actions).1 = none) := by
      rcases hfail with hc | ha
      · exact Or.inl (mapConditions_none m apiKey e.2.conditions hc)
      · cases hmc : (mapConditions m apiKey e.2.conditions).1 with
        | none => exact Or.inl rfl
        | some cs2 => exact Or.inr ⟨cs2, rfl, mapActions_none m apiKey e.2.actions ha⟩
    rcases hsplit with hmc | ⟨cs2, hmc, hma⟩
    · have hmsg := mapConditions_none_msgs m apiKey e.2.conditions hmc
      by_cases hdup : (lookup e.2.name st.tnameidx).isSome <;>
        exact ⟨by simp [ruleStep, hstat, hmc, hdup],
          by simp [ruleStep, hstat, hmc, hdup],
          by simp [ruleStep, hstat, hmc, hdup]; omega⟩
    · have hmsg := mapActions_none_msgs m apiKey e.2.actions hma
      by_cases hdup : (lookup e.2.name st.tnameidx).isSome <;>
        exact ⟨by simp [ruleStep, hstat, hmc, hma, hdup],
          by simp [ruleStep, hstat, hmc, hma, hdup],
          by simp [ruleStep, hstat, hmc, hma, hdup]; omega⟩
  · intro m apiKey cur nameidx fresh st e
    constructor
    · intro hml
      by_cases hdup : (lookup e.2.name st.tnameidx).isSome <;>
        exact ⟨by simp [linkStep, hml, hdup], by simp [linkStep, hml, hdup],
          by simp [linkStep, hml, hdup]⟩
    · intro hml1 hms
      by_cases hdup : (lookup e.2.name st.tnameidx).isSome <;>
      by_cases hmiss : (mapLinks m apiKey e.2.links).2.1 = [] <;>
      · cases hlk : lookup e.2.name nameidx with
        | some idx =>
          cases hcur : lookup idx cur with
          | some sdata =>
            by_cases hrec : sdata.recycle ≠ e.2.recycle <;>
              exact ⟨Request.put (sResourceLinksSlash ++ idx) e.2.name,
                by simp [linkStep, hml1, hms, hdup, hmiss, hlk, hcur, hrec],
                Or.inl ⟨idx, rfl, rfl⟩⟩
          | none =>
            exact ⟨Request.put (sResourceLinksSlash ++ idx) e.2.name,
              by simp [linkStep, hml1, hms, hdup, hmiss, hlk, hcur],
              Or.inl ⟨idx, rfl, rfl⟩⟩
        | none =>
          exact ⟨Request.post sResourceLinks e.2.name,
            by simp [linkStep, hml1, hms, hdup, hmiss, hlk],
            Or.inr ⟨rfl, rfl⟩⟩

/-- Claim C2 witness: the amended behaviour at concrete entities: a schedule
and a rule with a failing embedded address are skipped without requests, and
the partially rewritable resource link is imported with one create. -/
theorem c2_witness :
    (scheduleStep wMapsEmpty ['k'] [] [] (fun _ => []) wSchedState0
      (['1'], wSchedTarget)).requests = [] ∧
    (scheduleStep wMapsEmpty ['k'] [] [] (fun _ => []) wSchedState0
      (['1'], wSchedTarget)).map_schedule = [] ∧
    0 < (scheduleStep wMapsEmpty ['k'] [] [] (fun _ => []) wSchedState0
      (['1'], wSchedTarget)).warnings.length ∧
    (ruleStep wMapsEmpty ['k'] [] [] (fun _ => []) wRuleState0
      (['2'], wRuleTarget)).requests = [] ∧
    (ruleStep wMapsEmpty ['k'] [] [] (fun _ => []) wRuleState0
      (['2'], wRuleTarget)).map_rule = [] ∧
    0 < (ruleStep wMapsEmpty ['k'] [] [] (fun _ => []) wRuleState0
        (['2'], wRuleTarget)).errors.length +
      (ruleStep wMapsEmpty ['k'] [] [] (fun _ => []) wRuleState0
        (['2'], wRuleTarget)).warnings.length ∧
    (linkStep wMapsRule ['k'] [] [] (fun _ => ['8']) wLinkState0
      (['5'], wLinkTarget)).requests = [Request.post sResourceLinks ['L']] := by
  have hs := c2_amended.1 wMapsEmpty ['k'] [] [] (fun _ => []) wSchedState0
    (['1'], wSchedTarget)
    (fun a h => by
      rw [show mapAction wMapsEmpty ['k'] wSchedTarget.command true = ActRes.warn ['3'] from
        by decide] at h
      exact ActRes.noConfusion h)
  have hr := c2_amended.2.1 wMapsEmpty ['k'] [] [] (fun _ => []) wRuleState0
    (['2'], wRuleTarget) (by decide)
    (Or.inl ⟨{ address := ['/'] ++ sLights ++ '/' :: ['9'] }, by decide,
      fun ad ct h => by
        rw [show mapAddress wMapsEmpty ['k'] (['/'] ++ sLights ++ '/' :: ['9']) false =
          MapRes.warn ['9'] from by decide] at h
        exact MapRes.noConfusion h⟩)
  have hl := (c2_amended.2.2 wMapsRule ['k'] [] [] (fun _ => ['8']) wLinkState0
    (['5'], wLinkTarget)).2 (by decide) (by decide)
  obtain ⟨r, hreq, hcase⟩ := hl
  rcases hcase with ⟨idx, hidx, _⟩ | ⟨_, hre⟩
  · simp [lookup] at hidx
  · refine ⟨by simpa [wSchedState0] using hs.1, by simpa [wSchedState0] using hs.2.1,
      by simpa [wSchedState0] using hs.2.2, by simpa [wRuleState0] using hr.1,
      by simpa [wRuleState0] using hr.2.1, by simpa [wRuleState0] using hr.2.2, ?_⟩
    rw [hre] at hreq
    simpa [wLinkState0, wLinkTarget] using hreq

-- ## The pruning phase computes the relevance predicate

/-- On a parseable address, isRelevantAddress returns the relevance flag
without touching the error list. -/
theorem isRelevantAddress_ok (errors : List Str) (a : Str) (b : Bool)
    (h : (matchAddr b a).isSome) :
    isRelevantAddress errors a b = (errors, Except.ok (addrRelevantSpec b a)) := by
  obtain ⟨x, hm⟩ := Option.isSome_iff_exists.mp h
  obtain ⟨t, i, suf⟩ := x
  by_cases h1 : t = sLights
  · simp [isRelevantAddress, addrRelevantSpec, hm, h1]
  · by_cases h2 : t = sGroups
    · simp [isRelevantAddress, addrRelevantSpec, hm, h1, h2,
        show ¬(sGroups = sLights) from by decide]
    · simp [isRelevantAddress, addrRelevantSpec, hm, h1, h2]

/-- On parseable actions, checkActions computes the any-relevant flag. -/
theorem checkActions_ok (errors : List Str) (acts : List Str)
    (h : ∀ a ∈ acts, (matchAddr false a).isSome) :
    checkActions errors acts =
      (errors, Except.ok (acts.any (fun a => addrRelevantSpec false a))) := by
  induction acts with
  | nil => simp [checkActions]
  | cons a rest ih =>
    have hra := isRelevantAddress_ok errors a false (h a (by simp))
    cases hb : addrRelevantSpec false a with
    | true => simp [checkActions, hra, hb]
    | false =>
      have := ih (fun x hx => h x (by simp [hx]))
      simp [checkActions, hra, hb, this]

/-- Under the well-formedness of everything the scan inspects, linkRelevant
terminates normally, leaves the error list alone and returns exactly the
relevance predicate. -/
theorem linkRelevant_ok (hub : Hub) (links : List Str) :
    ∀ (errors warnings : List Str),
    (∀ l ∈ links, ∀ rtype rkey, matchResourceLink l = some (rtype, rkey) →
      (rtype = sRules → ∃ ru, lookup rkey hub.rules = some ru ∧
        ∀ a ∈ ru.actions, (matchAddr false a).isSome) ∧
      (rtype = sSchedules → ∃ sc, lookup rkey hub.schedules = some sc ∧
        (matchAddr true sc.command).isSome)) →
    ∃ ws, linkRelevant hub errors warnings links =
      (errors, ws, Except.ok (linkRelevantSpec hub links)) := by
  induction links with
  | nil =>
    intro errors warnings _
    exact ⟨warnings, by simp [linkRelevant, linkRelevantSpec]⟩
  | cons l rest ih =>
    intro errors warnings hwf
    have hspec : linkRelevantSpec hub (l :: rest) =
        (memberRelevantSpec hub l || linkRelevantSpec hub rest) := by
      simp [linkRelevantSpec]
    cases hml : matchResourceLink l with
    | none =>
      obtain ⟨ws, hrec⟩ := ih errors (warnings ++ [l]) (fun x hx => hwf x (by simp [hx]))
      refine ⟨ws, ?_⟩
      rw [hspec]
      simp [linkRelevant, hml, hrec, memberRelevantSpec]
    | some p =>
      obtain ⟨rtype, rkey⟩ := p
      by_cases hrt : rtype = sRules
      · subst hrt
        obtain ⟨ru, hru, hacts⟩ := (hwf l (by simp) _ _ hml).1 rfl
        have hchk := checkActions_ok errors ru.actions hacts
        cases hb : ru.actions.any (fun a => addrRelevantSpec false a) with
        | true =>
          refine ⟨warnings, ?_⟩
          rw [hspec]
          simp [linkRelevant, hml, hru, hchk, hb, memberRelevantSpec]
        | false =>
          obtain ⟨ws, hrec⟩ := ih errors warnings (fun x hx => hwf x (by simp [hx]))
          refine ⟨ws, ?_⟩
          rw [hspec]
          simp [linkRelevant, hml, hru, hchk, hb, hrec, memberRelevantSpec]
      · by_cases hrs : rtype = sSchedules
        · subst hrs
          obtain ⟨sc, hsc, hcmd⟩ := (hwf l (by simp) _ _ hml).2 rfl
          have hra := isRelevantAddress_ok errors sc.command true hcmd
          cases hb : addrRelevantSpec true sc.command with
          | true =>
            refine ⟨warnings, ?_⟩
            rw [hspec]
            simp [linkRelevant, hml, hrt, hsc, hra, hb, memberRelevantSpec]
          | false =>
            obtain ⟨ws, hrec⟩ := ih errors warnings (fun x hx => hwf x (by simp [hx]))
            refine ⟨ws, ?_⟩
            rw [hspec]
            simp [linkRelevant, hml, hrt, hsc, hra, hb, hrec, memberRelevantSpec]
        · obtain ⟨ws, hrec⟩ := ih errors warnings (fun x hx => hwf x (by simp [hx]))
          refine ⟨ws, ?_⟩
          rw [hspec]
          simp [linkRelevant, hml, hrt, hrs, hrec, memberRelevantSpec]

/-- Claim C7: a restored resource link is deleted by the pruning phase if
and only if no member of its re-fetched member list points at a rule with an
action addressing a light or a group other than 0, nor at a schedule whose
command addresses a light or a group other than 0 (given that the inspected
rules, schedules and their addresses are well formed). -/
theorem c7_prune_iff (hub : Hub) (errors warnings : List Str) (key2 : Str)
    (links : List Str)
    (hfetch : lookup key2 hub.resourcelinks = some links)
    (hwf : ∀ l ∈ links, ∀ rtype rkey, matchResourceLink l = some (rtype, rkey) →
      (rtype = sRules → ∃ ru, lookup rkey hub.rules = some ru ∧
        ∀ a ∈ ru.actions, (matchAddr false a).isSome) ∧
      (rtype = sSchedules → ∃ sc, lookup rkey hub.schedules = some sc ∧
        (matchAddr true sc.command).isSome)) :
    ∃ ws, cleanupLink hub errors warnings key2 =
      Except.ok (errors, ws,
        if linkRelevantSpec hub links then []
        else [Request.delete (sResourceLinksSlash ++ key2)]) ∧
      (linkRelevantSpec hub links = true ↔
        ∃ l ∈ links, memberRelevantSpec hub l = true) := by
  obtain ⟨ws, hrel⟩ := linkRelevant_ok hub links errors warnings hwf
  refine ⟨ws, ?_, by simp [linkRelevantSpec, List.any_eq_true]⟩
  cases hb : linkRelevantSpec hub links with
  | true => simp [cleanupLink, hfetch, hb ▸ hrel, hb]
  | false => simp [cleanupLink, hfetch, hb ▸ hrel, hb]

/-- Claim C7 witness: a restored link whose only member rule touches the
default group (address /groups/0/action) is classified irrelevant and
deleted. -/
theorem c7_witness :
    linkRelevantSpec
      { rules := [(['1'],
          { actions := [['/'] ++ sGroups ++ '/' :: (sZero ++ '/' :: ("action").toList)] })],
        schedules := [],
        resourcelinks := [(['7'], [['/'] ++ sRules ++ '/' :: ['1']])] }
      [['/'] ++ sRules ++ '/' :: ['1']] = false ∧
    cleanupLink
      { rules := [(['1'],
          { actions := [['/'] ++ sGroups ++ '/' :: (sZero ++ '/' :: ("action").toList)] })],
        schedules := [],
        resourcelinks := [(['7'], [['/'] ++ sRules ++ '/' :: ['1']])] }
      [] [] ['7'] =
      Except.ok ([], [], [Request.delete (sResourceLinksSlash ++ ['7'])]) := by
  obtain ⟨ws, hclean, hiff⟩ := c7_prune_iff
    { rules := [(['1'],
        { actions := [['/'] ++ sGroups ++ '/' :: (sZero ++ '/' :: ("action").toList)] })],
      schedules := [],
      resourcelinks := [(['7'], [['/'] ++ sRules ++ '/' :: ['1']])] }
    [] [] ['7'] [['/'] ++ sRules ++ '/' :: ['1']] (by decide)
    (by
      intro l hl rtype rkey hml
      simp at hl
      subst hl
      rw [show matchResourceLink ('/' :: (sRules ++ ['/', '1'])) = some (sRules, ['1'])
        from by decide] at hml
      injection hml with h1
      injection h1 with h2 h3
      subst h2
      subst h3
      refine ⟨fun _ =>
        ⟨{ actions := [['/'] ++ sGroups ++ '/' :: (sZero ++ '/' :: ("action").toList)] },
          by decide, by decide⟩,
        fun hs => absurd hs (by decide)⟩)
  have hspec : linkRelevantSpec
      { rules := [(['1'],
          { actions := [['/'] ++ sGroups ++ '/' :: (sZero ++ '/' :: ("action").toList)] })],
        schedules := [],
        resourcelinks := [(['7'], [['/'] ++ sRules ++ '/' :: ['1']])] }
      [['/'] ++ sRules ++ '/' :: ['1']] = false := by decide
  have hdec : cleanupLink
      { rules := [(['1'],
          { actions := [['/'] ++ sGroups ++ '/' :: (sZero ++ '/' :: ("action").toList)] })],
        schedules := [],
        resourcelinks := [(['7'], [['/'] ++ sRules ++ '/' :: ['1']])] }
      [] [] ['7'] =
      Except.ok ([], [], [Request.delete (sResourceLinksSlash ++ ['7'])]) := by decide
  exact ⟨hspec, hdec⟩

-- ## Preservation of the pre-seeded identity-map entries

/-- Dictionary insertion does not disturb other keys. -/
theorem lookup_dinsert_ne {α : Type} (k k2 : Str) (v : α) (m : List (Str × α))
    (h : k2 ≠ k) : lookup k2 (dinsert k v m) = lookup k2 m := by
  induction m with
  | nil => simp [dinsert, lookup, h]
  | cons e m2 ih =>
    obtain ⟨k3, v3⟩ := e
    by_cases h3 : k = k3
    · subst h3
      simp [dinsert, lookup, h]
    · simp [dinsert, lookup, h3]
      by_cases h4 : k2 = k3
      · simp [h4, lookup]
      · simp [h4, lookup, ih]

/-- Members of an insertion are the inserted pair or previous members. -/
theorem dinsert_mem {α : Type} (p : Str × α) (k : Str) (v : α) (m : List (Str × α))
    (h : p ∈ dinsert k v m) : p = (k, v) ∨ p ∈ m := by
  induction m with
  | nil => simpa [dinsert] using h
  | cons e m2 ih =>
    by_cases h3 : k = e.1
    · subst h3
      rcases List.mem_cons.mp (by simpa [dinsert] using h) with h4 | h4
      · exact Or.inl h4
      · exact Or.inr (by simp [h4])
    · rcases List.mem_cons.mp (by simpa [dinsert, h3] using h) with h4 | h4
      · exact Or.inr (by simp [h4])
      · rcases ih h4 with h5 | h5
        · exact Or.inl h5
        · exact Or.inr (by simp [h5])

/-- Every pair of the uniqueid map is justified by a collection entry that
carries that uniqueid. -/
theorem make_map_foldl_mem (items : List (Str × Option Str × Str)) :
    ∀ (acc : List (Str × Str) × List Str) (p : Str × Str),
      p ∈ (items.foldl mmStep acc).1 →
      p ∈ acc.1 ∨ ∃ nm, (p.2, some p.1, nm) ∈ items := by
  induction items with
  | nil =>
    intro acc p hp
    exact Or.inl (by simpa using hp)
  | cons e rest ih =>
    intro acc p hp
    obtain ⟨i0, ou, n0⟩ := e
    rw [List.foldl_cons] at hp
    rcases ih (mmStep acc (i0, ou, n0)) p hp with hin | ⟨nm, hnm⟩
    · cases hou : ou with
      | some u =>
        have hin2 : p ∈ dinsert u i0 acc.1 := by
          simpa [mmStep, hou] using hin
        rcases dinsert_mem p u i0 acc.1 hin2 with hpe | hacc
        · subst hpe
          exact Or.inr ⟨n0, by simp [hou]⟩
        · exact Or.inl hacc
      | none =>
        exact Or.inl (by simpa [mmStep, hou] using hin)
    · exact Or.inr ⟨nm, by simp [hnm]⟩

theorem make_map_mem (items : List (Str × Option Str × Str)) (p : Str × Str)
    (h : p ∈ (make_map items).1) : ∃ nm, (p.2, some p.1, nm) ∈ items := by
  rcases make_map_foldl_mem items ([], []) p h with h2 | h2
  · simp at h2
  · exact h2

/-- One sensor step never touches the map entry of another index. -/
theorem sensorStep_preserve (cur tgt : List (Str × SensorData)) (sm : List (Str × Str))
    (fresh : Str → Str) (st : SensorState) (p : Str × Str) (h : p.2 ≠ sOne) :
    lookup sOne (sensorStep cur tgt sm fresh st p).map_sensor =
      lookup sOne st.map_sensor := by
  obtain ⟨u, idx⟩ := p
  simp at h
  cases h1 : lookup idx tgt with
  | none => simp [sensorStep, h1]
  | some data =>
    cases h2 : lookup u sm with
    | some si =>
      cases h3 : lookup si cur with
      | some sdata =>
        by_cases h4 : sdata.type ≠ data.type <;> by_cases h5 : sdata.name ≠ data.name <;>
          simp [sensorStep, h1, h2, h3, h4, h5, lookup_dinsert_ne, Ne.symm h]
      | none => simp [sensorStep, h1, h2, h3]
    | none =>
      by_cases h6 : data.type = sClipFlag ∨ data.type = sClipStatus <;>
        simp [sensorStep, h1, h2, h6, lookup_dinsert_ne, Ne.symm h]

/-- The sensor fold preserves the entry of an index it never processes. -/
theorem sensorFold_preserve (cur tgt : List (Str × SensorData)) (sm : List (Str × Str))
    (fresh : Str → Str) (tm : List (Str × Str)) :
    ∀ (st : SensorState), (∀ p ∈ tm, p.2 ≠ sOne) →
      lookup sOne ((tm.foldl (sensorStep cur tgt sm fresh) st)).map_sensor =
        lookup sOne st.map_sensor := by
  induction tm with
  | nil => intro st _; rfl
  | cons p rest ih =>
    intro st hall
    rw [List.foldl_cons, ih _ (fun q hq => hall q (by simp [hq]))]
    exact sensorStep_preserve cur tgt sm fresh st p (hall p (by simp))

/-- One group step never touches the map entry of another index. -/
theorem groupStep_preserve (ml ms : List (Str × Str)) (cur : List (Str × GroupData))
    (nameidx : List (Str × Str)) (fresh : Str → Str) (st : GroupState)
    (e : Str × GroupData) (h : e.1 ≠ sZero) :
    lookup sZero (groupStep ml ms cur nameidx fresh st e).map_group =
      lookup sZero st.map_group := by
  obtain ⟨idx, data⟩ := e
  simp at h
  by_cases hdup : (lookup data.name st.tnameidx).isSome <;>
  by_cases hle : data.lights.filterMap (fun lidx => lookup lidx ml) = [] <;>
  · cases hlk : lookup data.name nameidx with
    | some idx2 =>
      cases hcur : lookup idx2 cur with
      | some sdata =>
        by_cases hty : sdata.type ≠ data.type <;>
          simp [groupStep, hdup, hle, hlk, hcur, hty, apply_ite, lookup_dinsert_ne,
            Ne.symm h]
      | none => simp [groupStep, hdup, hle, hlk, hcur, apply_ite]
    | none =>
      simp [groupStep, hdup, hle, hlk, apply_ite, lookup_dinsert_ne, Ne.symm h]

/-- The group fold preserves the entry of an index it never processes. -/
theorem groupFold_preserve (ml ms : List (Str × Str)) (cur : List (Str × GroupData))
    (nameidx : List (Str × Str)) (fresh : Str → Str) (tgt : List (Str × GroupData)) :
    ∀ (st : GroupState), (∀ p ∈ tgt, p.1 ≠ sZero) →
      lookup sZero ((tgt.foldl (groupStep ml ms cur nameidx fresh) st)).map_group =
        lookup sZero st.map_group := by
  induction tgt with
  | nil => intro st _; rfl
  | cons p rest ih =>
    intro st hall
    rw [List.foldl_cons, ih _ (fun q hq => hall q (by simp [hq]))]
    exact groupStep_preserve ml ms cur nameidx fresh st p (hall p (by simp))

/-- Claim C9 counterexample: a snapshot whose sensor collection contains an
entry keyed 1 with a uniqueid present on the current bridge (at id 3) makes
restoreSensors overwrite the pre-seeded entry 1 to 1 with 1 to 3. -/
theorem c9_counterexample :
    lookup sOne
      (restoreSensors [(['3'], wSensorU)] [(sOne, wSensorU)] (fun _ => [])
        [(sOne, sOne)]).map_sensor = some ['3'] ∧
    some ['3'] ≠ some sOne := by
  constructor
  · decide
  · decide

/-- Claim C9 amended: the pre-seeded entries survive every snapshot that
does not itself claim the reserved ids: if no target sensor keyed 1 carries
a uniqueid, restoreSensors leaves the sensor-map entry for key 1 unchanged,
and if no target group is keyed 0, restoreGroups leaves the group-map entry
for key 0 unchanged (no other phase writes these maps). -/
theorem c9_amended :
    (∀ (cur tgt : List (Str × SensorData)) (fresh : Str → Str)
      (map0 : List (Str × Str)),
      (∀ d, (sOne, d) ∈ tgt → d.uniqueid = none) →
      lookup sOne (restoreSensors cur tgt fresh map0).map_sensor = lookup sOne map0) ∧
    (∀ (ml ms : List (Str × Str)) (cur tgt : List (Str × GroupData))
      (fresh : Str → Str) (map0 : List (Str × Str)),
      (∀ p ∈ tgt, p.1 ≠ sZero) →
      lookup sZero (restoreGroups ml ms cur tgt fresh map0).map_group =
        lookup sZero map0) := by
  constructor
  · intro cur tgt fresh map0 h
    have htm : ∀ p ∈ (make_map (tgt.map (fun e => (e.1, e.2.uniqueid, e.2.name)))).1,
        p.2 ≠ sOne := by
      intro p hp hps
      obtain ⟨nm, hnm⟩ := make_map_mem _ p hp
      rw [hps] at hnm
      rcases List.mem_map.mp hnm with ⟨e, hmem, heq⟩
      obtain ⟨i0, d0⟩ := e
      injection heq with ha hb
      injection hb with hb1 hb2
      subst ha
      exact Option.noConfusion ((h d0 hmem) ▸ hb1)
    unfold restoreSensors
    exact sensorFold_preserve cur tgt _ fresh _ _ htm
  · intro ml ms cur tgt fresh map0 h
    unfold restoreGroups
    exact groupFold_preserve ml ms cur _ fresh tgt _ h

/-- Claim C9 witness: with a snapshot that maps sensor 2 and group 5 only,
both pre-seeded entries survive their phases unchanged. -/
theorem c9_witness :
    lookup sOne
      (restoreSensors [(['3'], wSensorU)] [(['2'], wSensorU)] (fun _ => [])
        [(sOne, sOne)]).map_sensor = some sOne ∧
    lookup sZero
      (restoreGroups [(['4'], ['4'])] [] [] [(['5'], wGroupG)] (fun _ => ['9'])
        [(sZero, sZero)]).map_group = some sZero := by
  have h1 := c9_amended.1 [(['3'], wSensorU)] [(['2'], wSensorU)] (fun _ => [])
    [(sOne, sOne)]
    (fun d hd => by
      simp at hd
      exact absurd hd.1 (by decide))
  have h2 := c9_amended.2 [(['4'], ['4'])] [] [] [(['5'], wGroupG)] (fun _ => ['9'])
    [(sZero, sZero)]
    (fun p hp => by
      simp at hp
      rw [hp]
      decide)
  rw [h1, h2]
  exact ⟨by decide, by decide⟩

-- ## List utilities for the name deduplicator

theorem countL_append (n : Str) (a b : List Str) :
    countL n (a ++ b) = countL n a + countL n b := by
  induction a with
  | nil => simp [countL]
  | cons m rest ih => simp [countL, ih]; omega

theorem countL_eq_zero (n : Str) (l : List Str) : countL n l = 0 ↔ n ∉ l := by
  induction l with
  | nil => simp [countL]
  | cons m rest ih =>
    by_cases hm : m = n
    · subst hm
      simp [countL]
    · simp [countL, hm, ih, Ne.symm hm]

theorem nth_append_left (a b : List Entry) (i : Nat) (h : i < a.length) :
    nth (a ++ b) i = nth a i := by
  induction a generalizing i with
  | nil => simp at h
  | cons x xs ih =>
    cases i with
    | zero => rfl
    | succ j => exact ih j (by simpa using h)

theorem nth_append_right (a b : List Entry) (i : Nat) :
    nth (a ++ b) (a.length + i) = nth b i := by
  induction a with
  | nil => simp [nth]
  | cons x xs ih =>
    have hlen : (x :: xs).length + i = (xs.length + i) + 1 := by simp; omega
    rw [hlen]
    exact ih

theorem nth_mem (l : List Entry) (i : Nat) (h : i < l.length) : nth l i ∈ l := by
  induction l generalizing i with
  | nil => simp at h
  | cons x xs ih =>
    cases i with
    | zero => simp [nth]
    | succ j => exact List.mem_cons_of_mem x (ih j (by simpa using h))

theorem mem_nth (l : List Entry) (x : Entry) (h : x ∈ l) :
    ∃ i, i < l.length ∧ nth l i = x := by
  induction l with
  | nil => simp at h
  | cons y ys ih =>
    rcases List.mem_cons.mp h with rfl | h2
    · exact ⟨0, by simp, rfl⟩
    · obtain ⟨i, hi, hn⟩ := ih h2
      exact ⟨i + 1, by simpa using hi, hn⟩

theorem take_append_le {α : Type} (a b : List α) (i : Nat) (h : i ≤ a.length) :
    (a ++ b).take i = a.take i := by
  induction a generalizing i with
  | nil =>
    simp at h
    simp [h]
  | cons x xs ih =>
    cases i with
    | zero => simp
    | succ j => simp [ih j (by simpa using h)]

theorem lookup_append {α : Type} (k : Str) (a b : List (Str × α)) :
    lookup k (a ++ b) =
      (match lookup k a with
       | some v => some v
       | none => lookup k b) := by
  induction a with
  | nil => simp [lookup]
  | cons e rest ih =>
    by_cases hk : k = e.1
    · simp [lookup, hk]
    · simp [lookup, hk, ih]

theorem lookup_dinsert_self {α : Type} (k : Str) (v : α) (m : List (Str × α)) :
    lookup k (dinsert k v m) = some v := by
  induction m with
  | nil => simp [dinsert, lookup]
  | cons e m2 ih =>
    by_cases h : k = e.1
    · simp [dinsert, lookup, h]
    · simp [dinsert, lookup, h, ih]

theorem nodup_concat {α : Type} (l : List α) (x : α) (h1 : l.Nodup) (h2 : x ∉ l) :
    (l ++ [x]).Nodup := by
  induction l with
  | nil => simp
  | cons a l2 ih =>
    rw [List.nodup_cons] at h1
    refine List.nodup_cons.mpr ⟨?_, ih h1.2 (fun hm => h2 (by simp [hm]))⟩
    intro hm
    rcases List.mem_append.mp hm with hm2 | hm2
    · exact h1.1 hm2
    · simp at hm2
      exact h2 (by simp [hm2])

theorem length_filter_split {α : Type} (p : α → Bool) (l : List α) :
    (l.filter p).length + (l.filter (fun x => !(p x))).length = l.length := by
  induction l with
  | nil => simp
  | cons a l2 ih =>
    cases hp : p a <;> simp [List.filter_cons, hp] <;> omega

theorem filter_length_one {α : Type} (p : α → Bool) (l : List α) (x : α)
    (hx : x ∈ l) (hpx : p x = true) (huniq : ∀ y ∈ l, p y = true → y = x)
    (hnd : l.Nodup) : (l.filter p).length = 1 := by
  induction l with
  | nil => simp at hx
  | cons a l2 ih =>
    rw [List.nodup_cons] at hnd
    by_cases hax : a = x
    · subst hax
      have hnil : l2.filter p = [] := by
        rw [List.filter_eq_nil_iff]
        intro y hy hpy
        exact hnd.1 ((huniq y (by simp [hy]) hpy) ▸ hy)
      simp [List.filter_cons, hpx, hnil]
    · have hpa : p a = false := by
        cases hpa : p a with
        | true => exact absurd (huniq a (by simp) hpa) hax
        | false => rfl
      have hx2 : x ∈ l2 := by
        rcases List.mem_cons.mp hx with rfl | h2
        · exact absurd rfl hax
        · exact h2
      simp [List.filter_cons, hpa]
      exact ih hx2 (fun y hy hpy => huniq y (by simp [hy]) hpy) hnd.2

theorem mem_take_idx {α : Type} (l : List α) (i : Nat) (x : α) (d : α)
    (h : x ∈ l.take i) : ∃ j, j < i ∧ j < l.length ∧ l.getD j d = x := by
  induction l generalizing i with
  | nil => simp at h
  | cons a l2 ih =>
    cases i with
    | zero => simp at h
    | succ k =>
      rcases List.mem_cons.mp (by simpa using h) with rfl | h2
      · exact ⟨0, by omega, by simp, rfl⟩
      · obtain ⟨j, hj1, hj2, hj3⟩ := ih k h2
        exact ⟨j + 1, by omega, by simpa using hj2, hj3⟩

theorem idx_mem_take {α : Type} (l : List α) (i j : Nat) (d : α) (hj : j < i)
    (hl : j < l.length) : l.getD j d ∈ l.take i := by
  induction l generalizing i j with
  | nil => simp at hl
  | cons a l2 ih =>
    cases i with
    | zero => omega
    | succ k =>
      cases j with
      | zero => simp [List.getD]
      | succ j2 =>
        simp only [List.take_succ_cons]
        exact List.mem_cons_of_mem a (ih k j2 (by omega) (by simpa using hl))

theorem nth_snd_map (tree : List Entry) (j : Nat) (h : j < tree.length) :
    (tree.map Prod.snd).getD j [] = (nth tree j).2 := by
  induction tree generalizing j with
  | nil => simp at h
  | cons e rest ih =>
    cases j with
    | zero => rfl
    | succ k => exact ih k (by simpa using h)

theorem nth_fst_map (tree : List Entry) (j : Nat) (h : j < tree.length) :
    (tree.map Prod.fst).getD j [] = (nth tree j).1 := by
  induction tree generalizing j with
  | nil => simp at h
  | cons e rest ih =>
    cases j with
    | zero => rfl
    | succ k => exact ih k (by simpa using h)

-- ## The candidate search of the deduplicator

theorem fixCandidate_length (name : Str) (i : Nat) :
    (fixCandidate name i).length ≤ 31 := by
  by_cases h : 31 < (name ++ natStr i).length
  · simp only [fixCandidate]
    rw [if_pos h]
    simp [List.length_take]
  · simp only [fixCandidate]
    rw [if_neg h]
    omega

theorem findFresh_spec (names : List Str) (name : Str) :
    ∀ (fuel index : Nat) (c : Str) (i2 : Nat),
      findFresh names name fuel index = some (c, i2) →
      c ∉ names ∧ c.length ≤ 31 ∧ 1 ≤ i2 := by
  intro fuel
  induction fuel with
  | zero => intro index c i2 h; simp [findFresh] at h
  | succ f ih =>
    intro index c i2 h
    by_cases hc : fixCandidate name (index + 1) ∈ names
    · exact ih (index + 1) c i2 (by simpa [findFresh, hc] using h)
    · have h2 : fixCandidate name (index + 1) = c ∧ index + 1 = i2 := by
        simpa [findFresh, hc] using h
      obtain ⟨he, hi⟩ := h2
      subst he
      exact ⟨hc, fixCandidate_length name (index + 1), by omega⟩

-- ## The first pass of the deduplicator

theorem firstPassGo_names (l : List Entry) :
    ∀ (names : List Str) (dups : List (Str × Nat)),
      (firstPassGo names dups l).1 = names ++ l.map Prod.snd := by
  induction l with
  | nil => intro names dups; simp [firstPassGo]
  | cons e rest ih =>
    intro names dups
    rw [firstPassGo, ih]
    simp

theorem firstPassGo_dups (l : List Entry) :
    ∀ (names : List Str) (dups : List (Str × Nat)),
      (∀ n, (lookup n dups).isSome ↔ 2 ≤ countL n names) →
      (∀ n j, lookup n dups = some j → j = 0) →
      (∀ n, (lookup n (firstPassGo names dups l).2).isSome ↔
        2 ≤ countL n (names ++ l.map Prod.snd)) ∧
      (∀ n j, lookup n (firstPassGo names dups l).2 = some j → j = 0) := by
  induction l with
  | nil =>
    intro names dups h1 h2
    exact ⟨fun n => by simpa using h1 n, h2⟩
  | cons e rest ih =>
    intro names dups h1 h2
    rw [firstPassGo]
    by_cases hcnd : e.2 ∈ names ∧ lookup e.2 dups = none
    · rw [if_pos hcnd]
      have h1b : ∀ n, (lookup n (dups ++ [(e.2, 0)])).isSome ↔
          2 ≤ countL n (names ++ [e.2]) := by
        intro n
        by_cases hn : n = e.2
        · rw [hn]
          have hc1 : 1 ≤ countL e.2 names := by
            by_contra hc
            exact (countL_eq_zero e.2 names).mp (by omega) hcnd.1
          rw [lookup_append, hcnd.2, countL_append]
          simp [lookup, countL]
          omega
        · rw [lookup_append]
          have hsingle : lookup n [(e.2, 0)] = none := by simp [lookup, hn]
          have hcl : countL n (names ++ [e.2]) = countL n names := by
            rw [countL_append]
            simp [countL, Ne.symm hn]
          rw [hcl]
          cases hl : lookup n dups with
          | some v =>
            simp only [Option.isSome_some, true_iff]
            exact (h1 n).mp (by simp [hl])
          | none =>
            simp only [hsingle, Option.isSome_none, false_iff]
            rw [← h1 n, hl]
            simp
      have h2b : ∀ n j, lookup n (dups ++ [(e.2, 0)]) = some j → j = 0 := by
        intro n j hj
        rw [lookup_append] at hj
        cases hl : lookup n dups with
        | some v =>
          rw [hl] at hj
          have hvj : v = j := by injection hj
          exact hvj ▸ h2 n v hl
        | none =>
          rw [hl] at hj
          by_cases hn : n = e.2
          · simp [lookup, hn] at hj
            omega
          · simp [lookup, hn] at hj
      have hres := ih (names ++ [e.2]) (dups ++ [(e.2, 0)]) h1b h2b
      exact ⟨fun n => by simpa using hres.1 n, hres.2⟩
    · rw [if_neg hcnd]
      have h1b : ∀ n, (lookup n dups).isSome ↔ 2 ≤ countL n (names ++ [e.2]) := by
        intro n
        by_cases hn : n = e.2
        · rw [hn, countL_append]
          rcases Decidable.not_and_iff_or_not.mp hcnd with hm | hl
          · have h0 : countL e.2 names = 0 := (countL_eq_zero e.2 names).mpr hm
            simp [h1 e.2, h0, countL]
          · have hsome : (lookup e.2 dups).isSome := by
              cases hl2 : lookup e.2 dups with
              | none => exact absurd hl2 hl
              | some v => simp
            have hge := (h1 e.2).mp hsome
            simp [hsome, countL]
            omega
        · rw [countL_append]
          have hz : countL n [e.2] = 0 := by simp [countL, Ne.symm hn]
          rw [hz]
          simpa using h1 n
      have hres := ih (names ++ [e.2]) dups h1b h2
      exact ⟨fun n => by simpa using hres.1 n, hres.2⟩

theorem firstPass_names (tree : List Entry) :
    (firstPass tree).1 = tree.map Prod.snd := by
  rw [firstPass, firstPassGo_names]
  simp

theorem firstPass_dups_iff (tree : List Entry) (n : Str) :
    (lookup n (firstPass tree).2).isSome ↔ 2 ≤ countName n tree := by
  have h := (firstPassGo_dups tree [] [] (by simp [lookup, countL])
    (by simp [lookup])).1 n
  simpa [firstPass, countName] using h

theorem firstPass_dups_val (tree : List Entry) (n : Str) (j : Nat)
    (h : lookup n (firstPass tree).2 = some j) : j = 0 :=
  (firstPassGo_dups tree [] [] (by simp [lookup, countL]) (by simp [lookup])).2 n j h

-- ## The second-pass invariant

theorem fixInv_init (tree : List Entry) :
    FixInv tree [] tree
      { names := (firstPass tree).1, dups := (firstPass tree).2, acc := [] } := by
  refine
    { split := by simp
      names_sup := by rw [firstPass_names]; exact fun n hn => hn
      acc_names := by simp
      acc_keys := by simp
      nodup := by simp
      dups_keys := fun n => firstPass_dups_iff tree n
      dups_val := ?_
      acc_dup := by simp
      fut := by simp
      idx_char := by simp
      idx_ren := by simp }
  intro n j hj
  have h0 := firstPass_dups_val tree n j hj
  subst h0
  simp [countL]

/-- Index bookkeeping when the processed prefix and the output both grow by
one entry. -/
theorem fixInv_step_aux (pre : List Entry) (e x : Entry) (acc : List Entry)
    (hlen : acc.length = pre.length) :
    (∀ i, i < pre.length → nth (acc ++ [x]) i = nth acc i) ∧
    (∀ i, i < pre.length → nth (pre ++ [e]) i = nth pre i) ∧
    nth (acc ++ [x]) pre.length = x ∧
    nth (pre ++ [e]) pre.length = e ∧
    (∀ i, i ≤ pre.length →
      ((pre ++ [e]).map Prod.snd).take i = (pre.map Prod.snd).take i) := by
  refine ⟨fun i hi => nth_append_left acc [x] i (by omega),
    fun i hi => nth_append_left pre [e] i hi, ?_, ?_, ?_⟩
  · rw [← hlen]
    have h := nth_append_right acc [x] 0
    simpa using h
  · have h := nth_append_right pre [e] 0
    simpa using h
  · intro i hi
    rw [List.map_append]
    exact take_append_le (pre.map Prod.snd) _ i (by simpa using hi)

theorem fixInv_step_unique (tree pre : List Entry) (e : Entry) (suf : List Entry)
    (st : FixState) (inv : FixInv tree pre (e :: suf) st)
    (hl : lookup e.2 st.dups = none) :
    FixInv tree (pre ++ [e]) suf { st with acc := st.acc ++ [e] } := by
  have hsplit := inv.split
  have htn : tree.map Prod.snd = pre.map Prod.snd ++ e.2 :: suf.map Prod.snd := by
    rw [hsplit]
    simp
  have hmemE : e.2 ∈ tree.map Prod.snd := by
    rw [htn]
    simp
  have hlen : st.acc.length = pre.length := by
    have h := congrArg List.length inv.acc_keys
    simpa using h
  have hcnt : countName e.2 tree =
      countL e.2 (pre.map Prod.snd) + (1 + countL e.2 (suf.map Prod.snd)) := by
    rw [countName, htn, countL_append]
    simp [countL]
  have hprename : (pre ++ [e]).map Prod.snd = pre.map Prod.snd ++ [e.2] := by simp
  have hcount_other : ∀ n, n ≠ e.2 →
      countL n ((pre ++ [e]).map Prod.snd) = countL n (pre.map Prod.snd) := by
    intro n hn
    rw [hprename, countL_append]
    simp [countL, Ne.symm hn]
  have hcle : countName e.2 tree ≤ 1 := by
    by_contra hc
    have h2 := (inv.dups_keys e.2).mpr (by omega)
    rw [hl] at h2
    simp at h2
  have hnotacc : e.2 ∉ st.acc.map Prod.snd := by
    intro hmem
    exact (inv.fut e.2 hmem hcle) (by simp)
  have haux := fixInv_step_aux pre e e st.acc hlen
  refine
    { split := by rw [hsplit]; simp
      names_sup := inv.names_sup
      acc_names := ?_
      acc_keys := by simp [inv.acc_keys]
      nodup := ?_
      dups_keys := inv.dups_keys
      dups_val := ?_
      acc_dup := ?_
      fut := ?_
      idx_char := ?_
      idx_ren := ?_ }
  · intro x hx
    rcases List.mem_append.mp hx with h2 | h2
    · exact inv.acc_names x h2
    · simp at h2
      rw [h2]
      exact inv.names_sup e.2 hmemE
  · rw [List.map_append]
    exact nodup_concat _ _ inv.nodup hnotacc
  · intro n j hj
    have hne : n ≠ e.2 := by
      rintro rfl
      rw [hl] at hj
      cases hj
    rw [hcount_other n hne]
    exact inv.dups_val n j hj
  · intro n hn h2le
    rw [List.map_append] at hn
    rcases List.mem_append.mp hn with h2 | h2
    · exact inv.acc_dup n h2 h2le
    · simp at h2
      subst h2
      omega
  · intro n hn hc1
    rw [List.map_append] at hn
    rcases List.mem_append.mp hn with h2 | h2
    · have h3 := inv.fut n h2 hc1
      intro hmem
      exact h3 (by simp [hmem])
    · simp at h2
      subst h2
      have h0 : countL e.2 (suf.map Prod.snd) = 0 := by omega
      exact (countL_eq_zero _ _).mp h0
  · intro i hi
    rcases Nat.lt_succ_iff_lt_or_eq.mp (by simpa using hi) with hlt | heq
    · rw [haux.1 i hlt, haux.2.1 i hlt, haux.2.2.2.2 i (by omega)]
      exact inv.idx_char i hlt
    · subst heq
      rw [haux.2.2.1, haux.2.2.2.1]
      exact iff_of_true rfl (Or.inl hcle)
  · intro i hi hne
    rcases Nat.lt_succ_iff_lt_or_eq.mp (by simpa using hi) with hlt | heq
    · rw [haux.1 i hlt] at hne ⊢
      rw [haux.2.1 i hlt] at hne
      exact inv.idx_ren i hlt hne
    · subst heq
      rw [haux.2.2.1, haux.2.2.2.1] at hne
      exact absurd rfl hne

theorem fixInv_step_first (tree pre : List Entry) (e : Entry) (suf : List Entry)
    (st : FixState) (inv : FixInv tree pre (e :: suf) st)
    (hl : lookup e.2 st.dups = some 0) :
    FixInv tree (pre ++ [e]) suf
      { st with dups := dinsert e.2 1 st.dups, acc := st.acc ++ [e] } := by
  have hsplit := inv.split
  have htn : tree.map Prod.snd = pre.map Prod.snd ++ e.2 :: suf.map Prod.snd := by
    rw [hsplit]
    simp
  have hmemE : e.2 ∈ tree.map Prod.snd := by
    rw [htn]
    simp
  have hlen : st.acc.length = pre.length := by
    have h := congrArg List.length inv.acc_keys
    simpa using h
  have hprename : (pre ++ [e]).map Prod.snd = pre.map Prod.snd ++ [e.2] := by simp
  have hcount_other : ∀ n, n ≠ e.2 →
      countL n ((pre ++ [e]).map Prod.snd) = countL n (pre.map Prod.snd) := by
    intro n hn
    rw [hprename, countL_append]
    simp [countL, Ne.symm hn]
  have hcount_self : countL e.2 ((pre ++ [e]).map Prod.snd) =
      countL e.2 (pre.map Prod.snd) + 1 := by
    rw [hprename, countL_append]
    simp [countL]
  have h2le : 2 ≤ countName e.2 tree := (inv.dups_keys e.2).mp (by simp [hl])
  have hcpre : countL e.2 (pre.map Prod.snd) = 0 := (inv.dups_val e.2 0 hl).mp rfl
  have hnotacc : e.2 ∉ st.acc.map Prod.snd := by
    intro hmem
    obtain ⟨j, hj, hj1⟩ := inv.acc_dup e.2 hmem h2le
    rw [hl] at hj
    have : j = 0 := by injection hj with h3; omega
    omega
  have htk : ((pre ++ [e]).map Prod.snd).take pre.length = pre.map Prod.snd := by
    rw [hprename, show pre.length = (pre.map (Prod.snd (α := Str))).length from by simp,
      take_append_le _ _ _ le_rfl, List.take_length]
  have haux := fixInv_step_aux pre e e st.acc hlen
  refine
    { split := by rw [hsplit]; simp
      names_sup := inv.names_sup
      acc_names := ?_
      acc_keys := by simp [inv.acc_keys]
      nodup := ?_
      dups_keys := ?_
      dups_val := ?_
      acc_dup := ?_
      fut := ?_
      idx_char := ?_
      idx_ren := ?_ }
  · intro x hx
    rcases List.mem_append.mp hx with h2 | h2
    · exact inv.acc_names x h2
    · simp at h2
      rw [h2]
      exact inv.names_sup e.2 hmemE
  · rw [List.map_append]
    exact nodup_concat _ _ inv.nodup hnotacc
  · intro n
    by_cases hn : n = e.2
    · rw [hn, lookup_dinsert_self]
      exact iff_of_true (by simp) h2le
    · rw [lookup_dinsert_ne _ _ _ _ hn]
      exact inv.dups_keys n
  · intro n j hj
    by_cases hn : n = e.2
    · rw [hn, lookup_dinsert_self] at hj
      have hj1 : j = 1 := by injection hj with h3; omega
      subst hj1
      rw [hn, hcount_self, hcpre]
    · rw [lookup_dinsert_ne _ _ _ _ hn] at hj
      rw [hcount_other n hn]
      exact inv.dups_val n j hj
  · intro n hn h2n
    by_cases hne : n = e.2
    · exact ⟨1, by rw [hne, lookup_dinsert_self], le_rfl⟩
    · rw [List.map_append] at hn
      rcases List.mem_append.mp hn with h2 | h2
      · obtain ⟨j, hj, hj1⟩ := inv.acc_dup n h2 h2n
        exact ⟨j, by rw [lookup_dinsert_ne _ _ _ _ hne]; exact hj, hj1⟩
      · simp at h2
        exact absurd h2 hne
  · intro n hn hc1
    rw [List.map_append] at hn
    rcases List.mem_append.mp hn with h2 | h2
    · have h3 := inv.fut n h2 hc1
      intro hmem
      exact h3 (by simp [hmem])
    · simp at h2
      subst h2
      omega
  · intro i hi
    rcases Nat.lt_succ_iff_lt_or_eq.mp (by simpa using hi) with hlt | heq
    · rw [haux.1 i hlt, haux.2.1 i hlt, haux.2.2.2.2 i (by omega)]
      exact inv.idx_char i hlt
    · subst heq
      rw [haux.2.2.1, haux.2.2.2.1, htk]
      exact iff_of_true rfl (Or.inr hcpre)
  · intro i hi hne
    rcases Nat.lt_succ_iff_lt_or_eq.mp (by simpa using hi) with hlt | heq
    · rw [haux.1 i hlt] at hne ⊢
      rw [haux.2.1 i hlt] at hne
      exact inv.idx_ren i hlt hne
    · subst heq
      rw [haux.2.2.1, haux.2.2.2.1] at hne
      exact absurd rfl hne

theorem fixInv_step_rename (fuel : Nat) (tree pre : List Entry) (e : Entry)
    (suf : List Entry) (st : FixState) (inv : FixInv tree pre (e :: suf) st)
    (index : Nat) (hl : lookup e.2 st.dups = some index) (hnz : index ≠ 0)
    (fixed : Str) (i2 : Nat)
    (hf : findFresh st.names e.2 fuel index = some (fixed, i2)) :
    FixInv tree (pre ++ [e]) suf
      { names := st.names ++ [fixed], dups := dinsert e.2 i2 st.dups,
        acc := st.acc ++ [(e.1, fixed)] } := by
  have hsplit := inv.split
  have htn : tree.map Prod.snd = pre.map Prod.snd ++ e.2 :: suf.map Prod.snd := by
    rw [hsplit]
    simp
  have hmemE : e.2 ∈ tree.map Prod.snd := by
    rw [htn]
    simp
  have hlen : st.acc.length = pre.length := by
    have h := congrArg List.length inv.acc_keys
    simpa using h
  have hprename : (pre ++ [e]).map Prod.snd = pre.map Prod.snd ++ [e.2] := by simp
  have hcount_other : ∀ n, n ≠ e.2 →
      countL n ((pre ++ [e]).map Prod.snd) = countL n (pre.map Prod.snd) := by
    intro n hn
    rw [hprename, countL_append]
    simp [countL, Ne.symm hn]
  have hcount_self : countL e.2 ((pre ++ [e]).map Prod.snd) =
      countL e.2 (pre.map Prod.snd) + 1 := by
    rw [hprename, countL_append]
    simp [countL]
  have hfr := findFresh_spec st.names e.2 fuel index fixed i2 hf
  have h2le : 2 ≤ countName e.2 tree := (inv.dups_keys e.2).mp (by simp [hl])
  have hcprene : countL e.2 (pre.map Prod.snd) ≠ 0 := by
    intro h0
    exact hnz ((inv.dups_val e.2 index hl).mpr h0)
  have hfixtree : fixed ∉ tree.map Prod.snd := fun hm => hfr.1 (inv.names_sup fixed hm)
  have hfixne : fixed ≠ e.2 := fun hh => hfixtree (hh ▸ hmemE)
  have hnotacc : fixed ∉ st.acc.map Prod.snd := by
    intro hm
    rcases List.mem_map.mp hm with ⟨x, hx, hx2⟩
    exact hfr.1 (hx2 ▸ inv.acc_names x hx)
  have htk : ((pre ++ [e]).map Prod.snd).take pre.length = pre.map Prod.snd := by
    rw [hprename, show pre.length = (pre.map (Prod.snd (α := Str))).length from by simp,
      take_append_le _ _ _ le_rfl, List.take_length]
  have haux := fixInv_step_aux pre e (e.1, fixed) st.acc hlen
  refine
    { split := by rw [hsplit]; simp
      names_sup := fun n hn => List.mem_append_left _ (inv.names_sup n hn)
      acc_names := ?_
      acc_keys := by simp [inv.acc_keys]
      nodup := ?_
      dups_keys := ?_
      dups_val := ?_
      acc_dup := ?_
      fut := ?_
      idx_char := ?_
      idx_ren := ?_ }
  · intro x hx
    rcases List.mem_append.mp hx with h2 | h2
    · exact List.mem_append_left _ (inv.acc_names x h2)
    · simp at h2
      rw [h2]
      simp
  · rw [List.map_append]
    exact nodup_concat _ _ inv.nodup hnotacc
  · intro n
    by_cases hn : n = e.2
    · rw [hn, lookup_dinsert_self]
      exact iff_of_true (by simp) h2le
    · rw [lookup_dinsert_ne _ _ _ _ hn]
      exact inv.dups_keys n
  · intro n j hj
    by_cases hn : n = e.2
    · rw [hn, lookup_dinsert_self] at hj
      have hj1 : i2 = j := by injection hj
      subst hj1
      rw [hn, hcount_self]
      have h1 := hfr.2.2
      constructor <;> omega
    · rw [lookup_dinsert_ne _ _ _ _ hn] at hj
      rw [hcount_other n hn]
      exact inv.dups_val n j hj
  · intro n hn h2n
    by_cases hne : n = e.2
    · exact ⟨i2, by rw [hne, lookup_dinsert_self], hfr.2.2⟩
    · rw [List.map_append] at hn
      rcases List.mem_append.mp hn with h2 | h2
      · obtain ⟨j, hj, hj1⟩ := inv.acc_dup n h2 h2n
        exact ⟨j, by rw [lookup_dinsert_ne _ _ _ _ hne]; exact hj, hj1⟩
      · simp at h2
        have h0 : countName fixed tree = 0 := (countL_eq_zero _ _).mpr hfixtree
        rw [h2] at h2n
        omega
  · intro n hn hc1
    rw [List.map_append] at hn
    rcases List.mem_append.mp hn with h2 | h2
    · have h3 := inv.fut n h2 hc1
      intro hmem
      exact h3 (by simp [hmem])
    · simp at h2
      rw [h2]
      intro hmem
      exact hfixtree (by rw [htn]; exact List.mem_append_right _ (by simp [hmem]))
  · intro i hi
    rcases Nat.lt_succ_iff_lt_or_eq.mp (by simpa using hi) with hlt | heq
    · rw [haux.1 i hlt, haux.2.1 i hlt, haux.2.2.2.2 i (by omega)]
      exact inv.idx_char i hlt
    · subst heq
      rw [haux.2.2.1, haux.2.2.2.1, htk]
      refine iff_of_false hfixne ?_
      rintro (h | h)
      · omega
      · exact hcprene h
  · intro i hi hne
    rcases Nat.lt_succ_iff_lt_or_eq.mp (by simpa using hi) with hlt | heq
    · rw [haux.1 i hlt] at hne ⊢
      rw [haux.2.1 i hlt] at hne
      exact inv.idx_ren i hlt hne
    · subst heq
      rw [haux.2.2.1] at hne ⊢
      exact ⟨hfr.2.1, hfixtree⟩

/-- One step of the second pass preserves the invariant. -/
theorem fixInv_step (fuel : Nat) (tree pre : List Entry) (e : Entry) (suf : List Entry)
    (st st2 : FixState) (inv : FixInv tree pre (e :: suf) st)
    (h : fixEntry fuel st e = some st2) : FixInv tree (pre ++ [e]) suf st2 := by
  cases hl : lookup e.2 st.dups with
  | none =>
    rw [show fixEntry fuel st e = some { st with acc := st.acc ++ [e] } from
      by simp [fixEntry, hl]] at h
    simp at h
    rw [← h]
    exact fixInv_step_unique tree pre e suf st inv hl
  | some index =>
    by_cases hz : index = 0
    · subst hz
      rw [show fixEntry fuel st e =
          some { st with dups := dinsert e.2 1 st.dups, acc := st.acc ++ [e] } from
        by simp [fixEntry, hl]] at h
      simp at h
      rw [← h]
      exact fixInv_step_first tree pre e suf st inv hl
    · cases hf : findFresh st.names e.2 fuel index with
      | none =>
        rw [show fixEntry fuel st e = none from by simp [fixEntry, hl, hz, hf]] at h
        cases h
      | some p =>
        obtain ⟨fixed, i2⟩ := p
        rw [show fixEntry fuel st e =
            some { names := st.names ++ [fixed], dups := dinsert e.2 i2 st.dups,
                   acc := st.acc ++ [(e.1, fixed)] } from
          by simp [fixEntry, hl, hz, hf]] at h
        simp at h
        rw [← h]
        exact fixInv_step_rename fuel tree pre e suf st inv index hl hz fixed i2 hf

/-- The whole second pass establishes the invariant over the full tree. -/
theorem fixInv_go (fuel : Nat) (suf : List Entry) :
    ∀ (pre tree : List Entry) (st st2 : FixState),
      FixInv tree pre suf st → fixGo fuel st suf = some st2 →
      FixInv tree tree [] st2 := by
  induction suf with
  | nil =>
    intro pre tree st st2 inv h
    simp [fixGo] at h
    have hp : pre = tree := by
      have h2 := inv.split
      simpa using h2.symm
    subst hp
    rw [← h]
    exact inv
  | cons e rest ih =>
    intro pre tree st st2 inv h
    rw [fixGo] at h
    cases hfe : fixEntry fuel st e with
    | none =>
      rw [hfe] at h
      cases h
    | some st3 =>
      rw [hfe] at h
      exact ih (pre ++ [e]) tree st3 st2
        (fixInv_step fuel tree pre e rest st st3 inv hfe) h

/-- A successful run of fixNames yields a final state satisfying the
invariant over the whole collection. -/
theorem fixNames_inv (fuel : Nat) (tree r : List Entry)
    (hr : fixNames fuel tree = some r) :
    ∃ st, FixInv tree tree [] st ∧ st.acc = r := by
  unfold fixNames at hr
  cases hg : fixGo fuel
      { names := (firstPass tree).1, dups := (firstPass tree).2, acc := [] } tree with
  | none =>
    rw [hg] at hr
    cases hr
  | some st =>
    rw [hg] at hr
    simp at hr
    exact ⟨st, fixInv_go fuel tree [] tree _ st (fixInv_init tree) hg, hr⟩

-- ## Occurrence indices

theorem mem_occIdx (n : Str) (tree : List Entry) (i : Nat) :
    i ∈ occIdx n tree ↔ i < tree.length ∧ (nth tree i).2 = n := by
  simp [occIdx, List.mem_filter, List.mem_range]

theorem occIdx_length (n : Str) (tree : List Entry) :
    (occIdx n tree).length = countName n tree := by
  induction tree using List.reverseRecOn with
  | nil => simp [occIdx, countName, countL]
  | append_singleton as2 e ih =>
    have hlen : (as2 ++ [e]).length = as2.length + 1 := by simp
    have he : nth (as2 ++ [e]) as2.length = e := by
      simpa using nth_append_right as2 [e] 0
    have hsame : (List.range as2.length).filter
          (fun i => decide ((nth (as2 ++ [e]) i).2 = n)) =
        (List.range as2.length).filter (fun i => decide ((nth as2 i).2 = n)) := by
      apply List.filter_congr
      intro i hi
      rw [List.mem_range] at hi
      rw [nth_append_left as2 [e] i hi]
    have hcnt : countName n (as2 ++ [e]) = countName n as2 + countL n [e.2] := by
      rw [countName, countName, List.map_append, countL_append]
      simp [countL]
    rw [occIdx, hlen, List.range_succ, List.filter_append, List.length_append, hsame]
    rw [occIdx] at ih
    rw [ih, hcnt]
    by_cases hen : e.2 = n
    · simp [List.filter, he, hen, countL]
    · simp [List.filter, he, hen, countL, Ne.symm hen]

theorem renamedIdx_eq (n : Str) (tree r : List Entry) :
    renamedIdx n tree r = (occIdx n tree).filter
      (fun i => !(decide ((nth r i).2 = (nth tree i).2))) := by
  rw [renamedIdx]
  apply List.filter_congr
  intro i _
  simp

/-- Claim C1 amended: for every collection and sufficient search fuel, the
deduplicator keeps all keys in order; the resulting names are pairwise
distinct; all resulting names are at most 31 characters provided the
original names were (renamed names always are, but an over-long original
name that is unique or a first occurrence is kept unchanged); an entry whose
name occurs at least twice is kept exactly when it is the first occurrence
in iteration order and renamed (to a fresh name of at most 31 characters)
otherwise, so of k entries sharing a name exactly k-1 are renamed; entries
with unique names are never touched. -/
theorem c1_amended (fuel : Nat) (tree r : List Entry) (hr : fixNames fuel tree = some r) :
    r.map Prod.fst = tree.map Prod.fst ∧
    (r.map Prod.snd).Nodup ∧
    ((∀ n ∈ tree.map Prod.snd, n.length ≤ 31) → ∀ n ∈ r.map Prod.snd, n.length ≤ 31) ∧
    (∀ i, i < tree.length →
      (2 ≤ countName (nth tree i).2 tree →
        ((countL (nth tree i).2 ((tree.map Prod.snd).take i) = 0 → nth r i = nth tree i) ∧
          (countL (nth tree i).2 ((tree.map Prod.snd).take i) ≠ 0 →
            (nth r i).2 ≠ (nth tree i).2 ∧ (nth r i).2.length ≤ 31))) ∧
      (countName (nth tree i).2 tree ≤ 1 → nth r i = nth tree i)) ∧
    (∀ n, 2 ≤ countName n tree →
      (renamedIdx n tree r).length + 1 = countName n tree) := by
  obtain ⟨st, inv, hacc⟩ := fixNames_inv fuel tree r hr
  subst hacc
  have hlen : st.acc.length = tree.length := by
    have h := congrArg List.length inv.acc_keys
    simpa using h
  have hkey : ∀ i, i < tree.length → (nth st.acc i).1 = (nth tree i).1 := by
    intro i hi
    have h1 := nth_fst_map st.acc i (by omega)
    have h2 := nth_fst_map tree i hi
    rw [inv.acc_keys] at h1
    exact h1.symm.trans h2
  refine ⟨inv.acc_keys, inv.nodup, ?_, ?_, ?_⟩
  · intro h31 n hn
    rcases List.mem_map.mp hn with ⟨x, hx, hx2⟩
    obtain ⟨i, hi, hnth⟩ := mem_nth _ x hx
    have hi2 : i < tree.length := by omega
    by_cases heq : (nth st.acc i).2 = (nth tree i).2
    · rw [← hx2, ← hnth, heq]
      exact h31 _ (List.mem_map_of_mem Prod.snd (nth_mem tree i hi2))
    · rw [← hx2, ← hnth]
      exact (inv.idx_ren i hi2 heq).1
  · intro i hi
    have hchar := inv.idx_char i hi
    refine ⟨fun h2le => ⟨fun hz => ?_, fun hnz => ?_⟩, fun hle => ?_⟩
    · have hsnd := hchar.mpr (Or.inr hz)
      exact Prod.ext (hkey i hi) hsnd
    · have hne : (nth st.acc i).2 ≠ (nth tree i).2 := by
        intro heq
        rcases hchar.mp heq with hc | hc
        · omega
        · exact hnz hc
      exact ⟨hne, (inv.idx_ren i hi hne).1⟩
    · have hsnd := hchar.mpr (Or.inl hle)
      exact Prod.ext (hkey i hi) hsnd
  · intro n h2le
    have hocc_len := occIdx_length n tree
    have hnodup : (occIdx n tree).Nodup := List.Nodup.filter _ (List.nodup_range _)
    have hex : ∃ i, i < tree.length ∧ (nth tree i).2 = n := by
      have hmem : n ∈ tree.map Prod.snd := by
        by_contra hc
        have h0 : countName n tree = 0 := (countL_eq_zero _ _).mpr hc
        omega
      rcases List.mem_map.mp hmem with ⟨x, hx, hx2⟩
      obtain ⟨i, hi, hnth⟩ := mem_nth _ x hx
      exact ⟨i, hi, by rw [hnth, hx2]⟩
    have hP := Nat.find_spec hex
    have h0 : countL n ((tree.map Prod.snd).take (Nat.find hex)) = 0 := by
      rw [countL_eq_zero]
      intro hmem
      obtain ⟨j, hj1, hj2, hj3⟩ := mem_take_idx _ _ _ [] hmem
      have hj2b : j < tree.length := by simpa using hj2
      rw [nth_snd_map tree j hj2b] at hj3
      exact Nat.find_min hex hj1 ⟨hj2b, hj3⟩
    have hchar0 := inv.idx_char (Nat.find hex) hP.1
    rw [hP.2] at hchar0
    have hq0 : (decide ((nth st.acc (Nat.find hex)).2 = (nth tree (Nat.find hex)).2)) =
        true := decide_eq_true (by rw [hP.2]; exact hchar0.mpr (Or.inr h0))
    have hi0_mem : Nat.find hex ∈ occIdx n tree := (mem_occIdx n tree _).mpr hP
    have huniq : ∀ j ∈ occIdx n tree,
        (decide ((nth st.acc j).2 = (nth tree j).2)) = true → j = Nat.find hex := by
      intro j hj hqj
      have hj2 := (mem_occIdx n tree j).mp hj
      by_contra hne
      rcases Nat.lt_or_ge j (Nat.find hex) with hlt | hge
      · exact Nat.find_min hex hlt hj2
      · have hgt : Nat.find hex < j := by omega
        have hmem : n ∈ (tree.map Prod.snd).take j := by
          have h3 := idx_mem_take (tree.map Prod.snd) j (Nat.find hex) []
            hgt (by simpa using hP.1)
          rwa [nth_snd_map tree _ hP.1, hP.2] at h3
        have hq2 := of_decide_eq_true hqj
        have hchar := inv.idx_char j hj2.1
        rcases hchar.mp hq2 with hc | hc
        · rw [hj2.2] at hc
          omega
        · rw [hj2.2] at hc
          exact (countL_eq_zero _ _).mp hc hmem
    have hone := filter_length_one
      (fun i => decide ((nth st.acc i).2 = (nth tree i).2)) (occIdx n tree)
      (Nat.find hex) hi0_mem hq0 huniq hnodup
    have hsplit := length_filter_split
      (fun i => decide ((nth st.acc i).2 = (nth tree i).2)) (occIdx n tree)
    rw [renamedIdx_eq]
    omega

/-- Claim C1 counterexample: two entries share a 32-character name; the
deduplicator renames only the second (to at most 31 characters), so the
unchanged first occurrence keeps its 32-character name and the collection
does not end up with all names at most 31 characters. -/
theorem c1_counterexample :
    fixNames 40 [(['1'], List.replicate 32 'a'), (['2'], List.replicate 32 'a')] =
      some [(['1'], List.replicate 32 'a'), (['2'], '2' :: List.replicate 30 'a')] ∧
    countName (List.replicate 32 'a')
      [(['1'], List.replicate 32 'a'), (['2'], List.replicate 32 'a')] = 2 ∧
    ¬(∀ n ∈ (([(['1'], List.replicate 32 'a'),
        (['2'], '2' :: List.replicate 30 'a')] : List Entry).map Prod.snd),
        n.length ≤ 31) := by
  refine ⟨by decide, by decide, ?_⟩
  intro h
  have h2 := h (List.replicate 32 'a') (by decide)
  exact absurd h2 (by decide)

/-- Claim C1 witness: a concrete collection with one duplicated name, where
the amended properties are confirmed at the computed output. -/
theorem c1_witness :
    fixNames 10 [(['1'], ['a']), (['2'], ['a']), (['3'], ['b'])] =
      some [(['1'], ['a']), (['2'], ['a', '2']), (['3'], ['b'])] ∧
    ([(['1'], ['a']), (['2'], ['a', '2']), (['3'], ['b'])] : List Entry).map Prod.fst =
      ([(['1'], ['a']), (['2'], ['a']), (['3'], ['b'])] : List Entry).map Prod.fst ∧
    (([(['1'], ['a']), (['2'], ['a', '2']), (['3'], ['b'])] : List Entry).map
      Prod.snd).Nodup ∧
    (∀ n ∈ (([(['1'], ['a']), (['2'], ['a', '2']),
        (['3'], ['b'])] : List Entry).map Prod.snd), n.length ≤ 31) ∧
    (renamedIdx ['a'] [(['1'], ['a']), (['2'], ['a']), (['3'], ['b'])]
        [(['1'], ['a']), (['2'], ['a', '2']), (['3'], ['b'])]).length + 1 =
      countName ['a'] [(['1'], ['a']), (['2'], ['a']), (['3'], ['b'])] := by
  have h := c1_amended 10 [(['1'], ['a']), (['2'], ['a']), (['3'], ['b'])]
    [(['1'], ['a']), (['2'], ['a', '2']), (['3'], ['b'])] (by decide)
  exact ⟨by decide, h.1, h.2.1, h.2.2.1 (by decide), h.2.2.2.2 ['a'] (by decide)⟩

end HueBackup
